import Mathlib

/-!
# swriter: the scheduler loop of `SlowWriter`

A shallow embedding of `src/swriter.go`.  The goroutine `SlowWriter.loop` is a
single-threaded state machine: every iteration blocks in one `select` and then
handles exactly one message.  The embedding makes that explicit: `step` handles
the message chosen by the `select`, `run` iterates it over the messages the loop
receives, in the order it receives them.

* `Buffer` is the part of `bytes.Buffer` the loop uses (`Write`, `WriteTo`,
  `Reset`), with its read offset.
* `Sink` is the `io.Writer` `w.w`.  Its answer may depend on every call made so
  far, so a sink that fails on its N-th call, or one that accepts only a part
  of what is offered, is a value of this type.
* `State` holds the fields of the struct that change (`t`, `e`, the channel
  `in` being closed or not), the loop's local `buf`, the timers created by
  `time.NewTimer`, and the list of arguments passed to the sink so far.
* Time is the instant at which the loop handles a message, an integer number of
  nanoseconds; `time.NewTimer(w.d)` called at `now` expires at `now + w.d`.
* `Close`, `Write` and `Flush` are the caller's side.  `Close` is not
  synchronised with the loop: it takes the value it reads in `w.t` as an
  argument, and `drainStore` is the part of a drain that runs after the sink
  call, so that a `Close` made during that call can be written down.
-/

namespace Swriter

/-- A byte slice, `[]byte`. -/
abbrev Bytes := List UInt8

/-- Values of Go's `error` that the loop can store: `io.ErrShortWrite`, which
`bytes.Buffer.WriteTo` produces itself, and whatever else a sink returns. -/
inductive GoError where
  | ErrShortWrite
  | other (code : Nat)
deriving DecidableEq, Repr

/-- The `io.Writer` behind the writer.  `write calls p` is the result `(n, err)`
of calling `Write(p)` after the calls `calls` have been made.  `count_le` is the
part of the documented contract of `io.Writer` (`0 <= n <= len(p)`) that
`bytes.Buffer.WriteTo` relies on. -/
structure Sink where
  write : List Bytes → Bytes → Int × Option GoError
  count_le : ∀ (calls : List Bytes) (p : Bytes), (write calls p).1 ≤ (p.length : Int)

/-- The fields `buf` and `off` of `bytes.Buffer`: the contents are `buf[off:]`. -/
structure Buffer where
  buf : Bytes
  off : Int
deriving DecidableEq, Repr

/-- The zero value `&bytes.Buffer{}` of line 41. -/
def Buffer.zero : Buffer := ⟨[], 0⟩

/-- The method `Len`: `len(b.buf) - b.off`. -/
def Buffer.Len (b : Buffer) : Int := (b.buf.length : Int) - b.off

/-- The slice `b.buf[b.off:]`. -/
def Buffer.unread (b : Buffer) : Bytes := b.buf.drop b.off.toNat

/-- The method `Reset`: `b.buf = b.buf[:0]; b.off = 0`. -/
def Buffer.Reset (_b : Buffer) : Buffer := ⟨[], 0⟩

/-- The method `Write` of the buffer: the bytes of `p` are copied behind the ones already held.
(Allocation failure, `ErrTooLarge`, is not modelled.) -/
def Buffer.Write (b : Buffer) (p : Bytes) : Buffer := { b with buf := b.buf ++ p }

/-- What `Buffer.WriteTo` does: it returns, or it panics with
"bytes.Buffer.WriteTo: invalid Write count".  `calls` is the list of arguments
the sink has received once `WriteTo` is over. -/
inductive WriteToResult where
  | ret (b : Buffer) (n : Int) (err : Option GoError) (calls : List Bytes)
  | panic (calls : List Bytes)
deriving DecidableEq, Repr

/-- The method `WriteTo` (Go standard library, `bytes/buffer.go`):
```
if nBytes := b.Len(); nBytes > 0 {
    m, e := w.Write(b.buf[b.off:])
    if m > nBytes { panic(...) }
    b.off += m
    n = int64(m)
    if e != nil { return n, e }
    if m != nBytes { return n, io.ErrShortWrite }
}
b.Reset()
return n, nil
```
-/
def Buffer.WriteTo (b : Buffer) (w : Sink) (calls : List Bytes) : WriteToResult :=
  let nBytes := b.Len
  if nBytes > 0 then
    let p := b.unread
    let r := w.write calls p
    let m := r.1
    let e := r.2
    if m > nBytes then .panic (calls ++ [p])
    else
      let b1 : Buffer := { b with off := b.off + m }
      if e ≠ none then .ret b1 m e (calls ++ [p])
      else if m ≠ nBytes then .ret b1 m (some .ErrShortWrite) (calls ++ [p])
      else .ret b1.Reset m none (calls ++ [p])
  else .ret b.Reset 0 none calls

/-- What has happened to a timer made by `time.NewTimer`. -/
inductive TimerState where
  | running
  | stopped
  | fired
deriving DecidableEq, Repr

/-- A `time.Timer`: the instant at which it expires and what has happened to it. -/
structure Timer where
  deadline : Int
  state : TimerState
deriving DecidableEq, Repr

/-- The method `Stop` on the timer at address `i`: a running timer becomes stopped,
any other timer is left as it is. -/
def stopTimer (ts : List Timer) (i : Nat) : List Timer :=
  ts.modify (fun tm => if tm.state = .running then { tm with state := .stopped } else tm) i

/-- The timer at address `i` has delivered its value on `C`. -/
def fireTimer (ts : List Timer) (i : Nat) : List Timer :=
  ts.modify (fun tm => { tm with state := .fired }) i

/-- Whether the goroutine `loop` is still in its `for`, has left it through
`break For`, or has died in a panic. -/
inductive Status where
  | running
  | done
  | panicked
deriving DecidableEq, Repr

/-- The mutable state of a `SlowWriter` and of its loop.  `t` is the pointer
`w.t` (`none` is `nil`, `some i` the `i`-th timer created), `inClosed` records
`close(w.in)`, `buf` is the loop's local buffer, `timers` the timers created so
far and `calls` the arguments of the calls made to the sink so far. -/
structure State where
  d : Int
  t : Option Nat
  e : Option GoError
  inClosed : Bool
  buf : Buffer
  timers : List Timer
  calls : List Bytes
  status : Status
deriving DecidableEq, Repr

/-- The message a `select` of the loop receives: data on `w.in`, the closing of
`w.in` (`ok == false`), a request on `w.flush`, or the expiry on `w.t.C`. -/
inductive Event where
  | write (data : Bytes)
  | close
  | flush
  | timer
deriving DecidableEq, Repr

/-- The constructor `New`: the struct literal of lines 27-34 together with the loop's fresh
buffer of line 41. -/
def New (d : Int) : State :=
  { d := d, t := none, e := none, inClosed := false, buf := Buffer.zero,
    timers := [], calls := [], status := .running }

/-- The drain of lines 66-71 and of lines 73-78:
```
_, err := buf.WriteTo(w.w)
if err != nil { w.e = err }
buf.Reset()
w.t = nil
```
A panic inside `WriteTo` ends the goroutine before the assignments. -/
def drain (w : Sink) (s : State) : State :=
  match s.buf.WriteTo w s.calls with
  | .panic calls => { s with calls := calls, status := .panicked }
  | .ret b _ err calls =>
    { s with
      e := if err ≠ none then err else s.e
      buf := b.Reset
      t := none
      calls := calls }

/-- One iteration of the `for` of `loop` (lines 44-80), handling the message `ev`
at the instant `now`.  `none` means that the `select` the loop is blocked in
cannot receive `ev`: the loop is over, the channel `in` is closed (no data) or
open (no `ok == false`), no timer is referenced, or the timer has not expired. -/
def step (w : Sink) (s : State) (now : Int) (ev : Event) : Option State :=
  if s.status ≠ .running then none
  else
    match s.t with
    | none =>
      match ev with
      | .write data =>
        if s.inClosed then none
        else some { s with
          buf := s.buf.Write data
          t := some s.timers.length
          timers := s.timers ++ [{ deadline := now + s.d, state := .running }] }
      | .close => if s.inClosed then some { s with status := .done } else none
      | .flush => some s
      | .timer => none
    | some i =>
      match ev with
      | .write data =>
        if s.inClosed then none else some { s with buf := s.buf.Write data }
      | .close =>
        if s.inClosed then some { s with timers := stopTimer s.timers i, status := .done }
        else none
      | .flush => some (drain w { s with timers := stopTimer s.timers i })
      | .timer =>
        match s.timers[i]? with
        | some tm =>
          if tm.state = .running ∧ tm.deadline ≤ now then
            some (drain w { s with timers := fireTimer s.timers i })
          else none
        | none => none

/-- The loop handling the messages `evs`, each at its instant, from state `s`. -/
def run (w : Sink) (s : State) : List (Int × Event) → Option State
  | [] => some s
  | (now, ev) :: evs =>
    match step w s now ev with
    | some s1 => run w s1 evs
    | none => none

/-- The method `Close` (lines 84-90) up to its `return`.  `seen` is the value
line 85 reads from `w.t`; the read is not synchronised with the loop, so it need
not be the value the loop holds (`Write` returns at the hand-off of line 94,
before the loop has run lines 51-52, and `Close` can then still read nil).  The
timer read is stopped when it is not nil, `w.in` is closed, and the value of
`w.e` is the result.  `none` is the panic of `close` on a channel that is closed
already. -/
def Close (s : State) (seen : Option Nat) : Option (State × Option GoError) :=
  if s.inClosed then none
  else
    let s1 : State :=
      match seen with
      | some i => { s with timers := stopTimer s.timers i }
      | none => s
    some ({ s1 with inClosed := true }, s.e)

/-- The method `Write` (lines 93-96): the loop receives `data` on `w.in`, then the length of
`data` and the value of `w.e` are the result. -/
def Write (w : Sink) (s : State) (now : Int) (data : Bytes) :
    Option (State × Int × Option GoError) :=
  match step w s now (.write data) with
  | some s1 => some (s1, (data.length : Int), s1.e)
  | none => none

/-- The method `Flush` (lines 99-101): the loop receives the request on `w.flush`. -/
def Flush (w : Sink) (s : State) (now : Int) : Option State :=
  step w s now .flush

/-- A sink that accepts everything offered to it. -/
def okSink : Sink :=
  { write := fun _ p => ((p.length : Int), none)
    count_le := fun _ _ => le_refl _ }

/-- A sink that fails on its `n`-th call (counted from 0) with `other 7`,
accepting nothing, and accepts everything on every other call. -/
def failNth (n : Nat) : Sink :=
  { write := fun calls p =>
      if calls.length = n then (0, some (.other 7)) else ((p.length : Int), none)
    count_le := fun calls p => by
      by_cases h : calls.length = n <;> simp [h] }

/-- The error `WriteTo` returns when the sink is offered the non-empty slice `p`
after the calls `calls`: the sink's own error, or `io.ErrShortWrite` when the
sink reports no error but a count other than `len(p)`. -/
def offerErr (w : Sink) (calls : List Bytes) (p : Bytes) : Option GoError :=
  if (w.write calls p).2 ≠ none then (w.write calls p).2
  else if (w.write calls p).1 ≠ (p.length : Int) then some .ErrShortWrite
  else none

/-- The payloads of the writes among the messages, in order. -/
def payloads : List (Int × Event) → List Bytes
  | [] => []
  | (_, .write data) :: evs => data :: payloads evs
  | _ :: evs => payloads evs

/-- The error of a drain whose buffer holds `p`: none when `p` is empty (the
sink is not called), `offerErr` otherwise. -/
def drainErr (w : Sink) (calls : List Bytes) (p : Bytes) : Option GoError :=
  if p = [] then none else offerErr w calls p

/-- The arguments of the sink calls after a drain whose buffer holds `p`. -/
def drainCalls (calls : List Bytes) (p : Bytes) : List Bytes :=
  if p = [] then calls else calls ++ [p]

/-- The messages that carry the payloads `ws`, each at its instant. -/
def writeEvents (ws : List (Int × Bytes)) : List (Int × Event) :=
  ws.map (fun x => (x.1, Event.write x.2))

/-- The payloads accepted since the last drain, after one more message: a write
adds its payload, a flush request or a timer expiry leaves none. -/
def pendingStep (acc : List Bytes) : Event → List Bytes
  | .write data => acc ++ [data]
  | .flush => []
  | .timer => []
  | .close => acc

/-- The payloads of the writes the loop has accepted since the last flush request
or timer expiry it handled (since construction when there is none). -/
def pending (evs : List (Int × Event)) : List Bytes :=
  evs.foldl (fun acc x => pendingStep acc x.2) []

/-- What holds between messages as long as `Close` has not been called: the loop
is running, the timer reference is set exactly when a write has been accepted
since the last drain, it then points to a running timer, and the buffer holds
the payloads accepted since the last drain. -/
structure Inv (s : State) (acc : List Bytes) : Prop where
  running : s.status = .running
  isOpen : s.inClosed = false
  off : s.buf.off = 0
  armed : s.t ≠ none ↔ acc ≠ []
  held : s.buf.buf = acc.flatten
  live : ∀ i, s.t = some i → ∃ tm, s.timers[i]? = some tm ∧ tm.state = .running

/-- A timer that is running is the one `w.t` points to. -/
def OneTimer (s : State) : Prop :=
  ∀ j tm, s.timers[j]? = some tm → tm.state = .running → s.t = some j

/-- For every call the sink has received, the error `WriteTo` returned for it:
the `k`-th entry is the answer to the `k`-th argument after the `k` calls
before it. -/
def callErrs (w : Sink) (calls : List Bytes) : List (Option GoError) :=
  (List.range calls.length).map (fun k => offerErr w (calls.take k) (calls.getD k []))

/-- The errors of the drains that failed, oldest first. -/
def failures (w : Sink) (calls : List Bytes) : List GoError :=
  (callErrs w calls).filterMap id

/-- What holds between messages about Last Error: it is the error of the most
recent failed drain, nil when no drain has failed. -/
def ErrInv (w : Sink) (s : State) : Prop :=
  s.buf.off = 0 ∧ s.e = (failures w s.calls).getLast?

/-- A sink that reports no error but accepts all bytes offered except the last
one. -/
def shortSink : Sink :=
  { write := fun _ p => ((p.length : Int) - 1, none)
    count_le := fun _ p => by
      show (p.length : Int) - 1 ≤ (p.length : Int)
      omega }

/-- The second half of a drain, lines 67-71 and 74-78: what the loop does with the
result of `WriteTo` once the sink call is over.  `drain w s` is
`drainStore s (s.buf.WriteTo w s.calls)`; the state may have been changed by
`Close` while the sink call was in progress. -/
def drainStore (s : State) (r : WriteToResult) : State :=
  match r with
  | .panic calls => { s with calls := calls, status := .panicked }
  | .ret b _ err calls =>
    { s with
      e := if err ≠ none then err else s.e
      buf := b.Reset
      t := none
      calls := calls }

/-! # Properties of the loop -/

/-! ## The buffer -/

theorem unread_length_le (b : Buffer) (h : 0 < b.Len) : (b.unread.length : Int) ≤ b.Len := by
  unfold Buffer.unread Buffer.Len at *
  rw [List.length_drop]
  omega

theorem unread_of_off (b : Buffer) (h : b.off = 0) : b.unread = b.buf := by
  simp [Buffer.unread, h]

theorem Len_of_off (b : Buffer) (h : b.off = 0) : b.Len = (b.buf.length : Int) := by
  simp [Buffer.Len, h]

/-- With a sink that honours `count_le`, `WriteTo` returns: the sink is called
once with the whole contents when there are any, and not at all otherwise. -/
theorem WriteTo_ret (b : Buffer) (w : Sink) (calls : List Bytes) :
    ∃ b1 n err, b.WriteTo w calls
      = .ret b1 n err (if 0 < b.Len then calls ++ [b.unread] else calls) := by
  unfold Buffer.WriteTo
  by_cases h : 0 < b.Len
  · have h1 := w.count_le calls b.unread
    have h2 := unread_length_le b h
    have h3 : ¬ (w.write calls b.unread).1 > b.Len := by omega
    simp only [gt_iff_lt] at h3
    simp only [gt_iff_lt, h, if_true, h3, if_false]
    split_ifs <;> exact ⟨_, _, _, rfl⟩
  · simp only [gt_iff_lt, h, if_false]
    exact ⟨_, _, _, rfl⟩

/-- The result of `WriteTo` on a buffer whose read offset is 0. -/
theorem WriteTo_off (b : Buffer) (w : Sink) (calls : List Bytes) (h : b.off = 0) :
    ∃ b1 n, b.WriteTo w calls
      = .ret b1 n (if b.buf = [] then none else offerErr w calls b.buf)
          (if b.buf = [] then calls else calls ++ [b.buf]) := by
  unfold Buffer.WriteTo
  rw [unread_of_off b h, Len_of_off b h]
  by_cases hb : b.buf = []
  · simp [hb]
  · have hpos : (0 : Int) < (b.buf.length : Int) := by
      have := List.length_pos.mpr hb
      omega
    have h1 := w.count_le calls b.buf
    have h3 : ¬ ((b.buf.length : Int) < (w.write calls b.buf).1) := by omega
    simp only [gt_iff_lt, hpos, if_true, h3, if_false, hb, offerErr]
    split_ifs <;> exact ⟨_, _, rfl⟩

/-! ## The drain -/

/-- A drain never panics, and the fields it leaves alone. -/
theorem drain_frame (w : Sink) (s : State) :
    (drain w s).status = s.status ∧ (drain w s).t = none ∧ (drain w s).buf = Buffer.zero
      ∧ (drain w s).timers = s.timers ∧ (drain w s).d = s.d
      ∧ (drain w s).inClosed = s.inClosed
      ∧ (drain w s).calls = (if 0 < s.buf.Len then s.calls ++ [s.buf.unread] else s.calls) := by
  obtain ⟨b1, n, err, h⟩ := WriteTo_ret s.buf w s.calls
  unfold drain
  rw [h]
  exact ⟨rfl, rfl, rfl, rfl, rfl, rfl, rfl⟩

/-- The drain of a buffer whose read offset is 0, field by field. -/
theorem drain_off (w : Sink) (s : State) (h : s.buf.off = 0) :
    drain w s =
      { s with
        e := if drainErr w s.calls s.buf.buf ≠ none then drainErr w s.calls s.buf.buf else s.e
        buf := Buffer.zero
        t := none
        calls := drainCalls s.calls s.buf.buf } := by
  obtain ⟨b1, n, hW⟩ := WriteTo_off s.buf w s.calls h
  unfold drain
  rw [hW]
  rfl

/-! ## Runs -/

theorem run_append (w : Sink) (s : State) (xs ys : List (Int × Event)) :
    run w s (xs ++ ys) = (run w s xs).bind (fun s1 => run w s1 ys) := by
  induction xs generalizing s with
  | nil => rfl
  | cons x xs ih =>
    obtain ⟨now, ev⟩ := x
    simp only [List.cons_append, run]
    cases hstep : step w s now ev with
    | none => rfl
    | some s1 => exact ih s1

theorem run_single (w : Sink) (s : State) (now : Int) (ev : Event) :
    run w s [(now, ev)] = step w s now ev := by
  simp only [run]
  cases step w s now ev <;> rfl

/-! ## The cases of one iteration -/

theorem step_write_idle (w : Sink) (s : State) (now : Int) (data : Bytes)
    (hst : s.status = .running) (hopen : s.inClosed = false) (ht : s.t = none) :
    step w s now (.write data) = some { s with
      buf := s.buf.Write data
      t := some s.timers.length
      timers := s.timers ++ [{ deadline := now + s.d, state := .running }] } := by
  simp [step, hst, hopen, ht]

theorem step_write_armed (w : Sink) (s : State) (now : Int) (data : Bytes) (i : Nat)
    (hst : s.status = .running) (hopen : s.inClosed = false) (ht : s.t = some i) :
    step w s now (.write data) = some { s with buf := s.buf.Write data } := by
  simp [step, hst, hopen, ht]

theorem step_flush_idle (w : Sink) (s : State) (now : Int)
    (hst : s.status = .running) (ht : s.t = none) :
    step w s now .flush = some s := by
  simp [step, hst, ht]

theorem step_flush_armed (w : Sink) (s : State) (now : Int) (i : Nat)
    (hst : s.status = .running) (ht : s.t = some i) :
    step w s now .flush = some (drain w { s with timers := stopTimer s.timers i }) := by
  simp [step, hst, ht]

theorem step_timer_armed (w : Sink) (s : State) (now : Int) (i : Nat) (tm : Timer)
    (hst : s.status = .running) (ht : s.t = some i) (htm : s.timers[i]? = some tm)
    (hrun : tm.state = .running) (hdl : tm.deadline ≤ now) :
    step w s now .timer = some (drain w { s with timers := fireTimer s.timers i }) := by
  simp [step, hst, ht, htm, hrun, hdl]

theorem step_close_idle (w : Sink) (s : State) (now : Int)
    (hst : s.status = .running) (hcl : s.inClosed = true) (ht : s.t = none) :
    step w s now .close = some { s with status := .done } := by
  simp [step, hst, hcl, ht]

theorem step_close_armed (w : Sink) (s : State) (now : Int) (i : Nat)
    (hst : s.status = .running) (hcl : s.inClosed = true) (ht : s.t = some i) :
    step w s now .close = some { s with timers := stopTimer s.timers i, status := .done } := by
  simp [step, hst, hcl, ht]

/-- Writes accepted while a timer is referenced only grow the buffer. -/
theorem run_writes_armed (w : Sink) (ws : List (Int × Bytes)) (s : State) (i : Nat)
    (hst : s.status = .running) (hopen : s.inClosed = false) (ht : s.t = some i) :
    run w s (writeEvents ws)
      = some { s with buf := { s.buf with buf := s.buf.buf ++ (ws.map Prod.snd).flatten } } := by
  induction ws generalizing s with
  | nil => simp [writeEvents, run]
  | cons x ws ih =>
    obtain ⟨now, data⟩ := x
    have hs : step w s now (.write data) = some { s with buf := s.buf.Write data } := by
      simp [step, hst, hopen, ht]
    simp only [writeEvents, List.map_cons, run, hs]
    have := ih { s with buf := s.buf.Write data } hst hopen ht
    simp only [writeEvents] at this
    rw [this]
    simp [Buffer.Write, List.append_assoc]

/-- Writes accepted from a state without timer: the first one creates the timer,
all of them grow the buffer. -/
theorem run_writes_idle (w : Sink) (s : State) (t0 : Int) (d1 : Bytes) (ws : List (Int × Bytes))
    (hst : s.status = .running) (hopen : s.inClosed = false) (ht : s.t = none) :
    ∃ sa, run w s (writeEvents ((t0, d1) :: ws)) = some sa
      ∧ sa.status = .running ∧ sa.inClosed = false ∧ sa.t = some s.timers.length
      ∧ sa.buf = ⟨s.buf.buf ++ (((t0, d1) :: ws).map Prod.snd).flatten, s.buf.off⟩
      ∧ sa.timers = s.timers ++ [{ deadline := t0 + s.d, state := .running }]
      ∧ sa.calls = s.calls ∧ sa.e = s.e ∧ sa.d = s.d := by
  have h1 : writeEvents ((t0, d1) :: ws) = (t0, Event.write d1) :: writeEvents ws := rfl
  rw [h1]
  simp only [run, step_write_idle w s t0 d1 hst hopen ht]
  have h2 := run_writes_armed w ws
    { s with
      buf := s.buf.Write d1
      t := some s.timers.length
      timers := s.timers ++ [{ deadline := t0 + s.d, state := .running }] }
    s.timers.length hst hopen rfl
  rw [h2]
  refine ⟨_, rfl, hst, hopen, rfl, ?_, rfl, rfl, rfl, rfl⟩
  simp [Buffer.Write, List.append_assoc]

/-- A flush request received while a timer is referenced and the read offset is
0: the timer is stopped and the buffer drained. -/
theorem flush_armed (w : Sink) (s : State) (now : Int) (i : Nat)
    (hst : s.status = .running) (ht : s.t = some i) (ho : s.buf.off = 0) :
    ∃ s1, step w s now .flush = some s1
      ∧ s1.calls = drainCalls s.calls s.buf.buf
      ∧ s1.e = (if drainErr w s.calls s.buf.buf ≠ none then drainErr w s.calls s.buf.buf else s.e)
      ∧ s1.buf = Buffer.zero ∧ s1.t = none ∧ s1.status = .running
      ∧ s1.timers = stopTimer s.timers i ∧ s1.d = s.d ∧ s1.inClosed = s.inClosed := by
  rw [step_flush_armed w s now i hst ht]
  refine ⟨_, rfl, ?_⟩
  rw [drain_off w { s with timers := stopTimer s.timers i } ho]
  exact ⟨rfl, rfl, rfl, rfl, hst, rfl, rfl, rfl⟩

/-- The expiry of the referenced timer, received at or after its deadline while
the read offset is 0: the buffer is drained. -/
theorem timer_armed (w : Sink) (s : State) (now : Int) (i : Nat) (tm : Timer)
    (hst : s.status = .running) (ht : s.t = some i) (ho : s.buf.off = 0)
    (htm : s.timers[i]? = some tm) (hrun : tm.state = .running) (hdl : tm.deadline ≤ now) :
    ∃ s1, step w s now .timer = some s1
      ∧ s1.calls = drainCalls s.calls s.buf.buf
      ∧ s1.e = (if drainErr w s.calls s.buf.buf ≠ none then drainErr w s.calls s.buf.buf else s.e)
      ∧ s1.buf = Buffer.zero ∧ s1.t = none ∧ s1.status = .running
      ∧ s1.timers = fireTimer s.timers i ∧ s1.d = s.d ∧ s1.inClosed = s.inClosed := by
  rw [step_timer_armed w s now i tm hst ht htm hrun hdl]
  refine ⟨_, rfl, ?_⟩
  rw [drain_off w { s with timers := fireTimer s.timers i } ho]
  exact ⟨rfl, rfl, rfl, rfl, hst, rfl, rfl, rfl⟩

/-! ## Coalescing -/

/-- C1. From an idle state (loop running, no timer, empty buffer), writes
`d1 .. dn` that carry at least one byte in total, followed by a drain, make the
sink receive exactly one more call, whose argument is `d1 ++ .. ++ dn`, and
leave the buffer empty and the timer reference nil.  The drain is a flush
request at any instant, or the expiry of the timer at any instant from
(instant of the first write) + `d` on; both are handled by the loop. -/
theorem coalescing (w : Sink) (s : State) (t0 : Int) (d1 : Bytes) (ws : List (Int × Bytes))
    (hst : s.status = .running) (hopen : s.inClosed = false) (ht : s.t = none)
    (hbuf : s.buf = Buffer.zero)
    (hne : (((t0, d1) :: ws).map Prod.snd).flatten ≠ []) :
    (∀ now, ∃ s1, run w s (writeEvents ((t0, d1) :: ws) ++ [(now, .flush)]) = some s1
        ∧ s1.calls = s.calls ++ [(((t0, d1) :: ws).map Prod.snd).flatten]
        ∧ s1.buf = Buffer.zero ∧ s1.t = none ∧ s1.status = .running)
    ∧ (∀ now, t0 + s.d ≤ now →
        ∃ s1, run w s (writeEvents ((t0, d1) :: ws) ++ [(now, .timer)]) = some s1
        ∧ s1.calls = s.calls ++ [(((t0, d1) :: ws).map Prod.snd).flatten]
        ∧ s1.buf = Buffer.zero ∧ s1.t = none ∧ s1.status = .running) := by
  obtain ⟨sa, hw, hsta, _, hta, hba, htma, hca, _, _⟩ := run_writes_idle w s t0 d1 ws hst hopen ht
  have hb : s.buf.buf = [] := by rw [hbuf]; rfl
  have ho : s.buf.off = 0 := by rw [hbuf]; rfl
  have hoa : sa.buf.off = 0 := by rw [hba]; exact ho
  have hbb : sa.buf.buf = (((t0, d1) :: ws).map Prod.snd).flatten := by
    rw [hba]; simp only [hb, List.nil_append]
  have hcalls : drainCalls sa.calls sa.buf.buf
      = s.calls ++ [(((t0, d1) :: ws).map Prod.snd).flatten] := by
    rw [hbb, hca]; simp only [drainCalls, hne, if_false]
  constructor
  · intro now
    obtain ⟨s1, h1, hc1, _, hb1, ht1, hs1, _⟩ := flush_armed w sa now _ hsta hta hoa
    refine ⟨s1, ?_, hc1.trans hcalls, hb1, ht1, hs1⟩
    rw [run_append, hw]
    simp only [Option.bind, run_single, h1]
  · intro now hnow
    have htm : sa.timers[s.timers.length]? = some ⟨t0 + s.d, .running⟩ := by
      rw [htma]; exact List.getElem?_concat_length _ _
    obtain ⟨s1, h1, hc1, _, hb1, ht1, hs1, _⟩ :=
      timer_armed w sa now _ _ hsta hta hoa htm rfl hnow
    refine ⟨s1, ?_, hc1.trans hcalls, hb1, ht1, hs1⟩
    rw [run_append, hw]
    simp only [Option.bind, run_single, h1]

/-- C1 at the scenario of the specification: "hello" at 0 ms, "world" at 5 ms,
interval 16 ms. -/
theorem coalescing_witness :
    (∀ now, ∃ s1, run okSink (New 16000000)
          (writeEvents ((0, [104, 101, 108, 108, 111]) :: [(5000000, [119, 111, 114, 108, 100])])
            ++ [(now, .flush)]) = some s1
        ∧ s1.calls = (New 16000000).calls
            ++ [(((0, [104, 101, 108, 108, 111]) :: [(5000000, [119, 111, 114, 108, 100])]).map
                  Prod.snd).flatten]
        ∧ s1.buf = Buffer.zero ∧ s1.t = none ∧ s1.status = .running)
    ∧ (∀ now, 0 + (New 16000000).d ≤ now →
        ∃ s1, run okSink (New 16000000)
          (writeEvents ((0, [104, 101, 108, 108, 111]) :: [(5000000, [119, 111, 114, 108, 100])])
            ++ [(now, .timer)]) = some s1
        ∧ s1.calls = (New 16000000).calls
            ++ [(((0, [104, 101, 108, 108, 111]) :: [(5000000, [119, 111, 114, 108, 100])]).map
                  Prod.snd).flatten]
        ∧ s1.buf = Buffer.zero ∧ s1.t = none ∧ s1.status = .running) :=
  coalescing okSink (New 16000000) 0 [104, 101, 108, 108, 111]
    [(5000000, [119, 111, 114, 108, 100])] rfl rfl rfl rfl (by decide)

/-! ## Inversion of one iteration -/

/-- Every way in which the loop handles a message. -/
theorem step_cases (w : Sink) (s s1 : State) (now : Int) (ev : Event)
    (h : step w s now ev = some s1) :
    s.status = .running ∧
    ((∃ data, ev = .write data ∧ s.inClosed = false ∧ s.t = none ∧
        s1 = { s with
          buf := s.buf.Write data
          t := some s.timers.length
          timers := s.timers ++ [{ deadline := now + s.d, state := .running }] })
    ∨ (∃ data i, ev = .write data ∧ s.inClosed = false ∧ s.t = some i ∧
        s1 = { s with buf := s.buf.Write data })
    ∨ (ev = .flush ∧ s.t = none ∧ s1 = s)
    ∨ (∃ i, ev = .flush ∧ s.t = some i ∧
        s1 = drain w { s with timers := stopTimer s.timers i })
    ∨ (∃ i tm, ev = .timer ∧ s.t = some i ∧ s.timers[i]? = some tm ∧ tm.state = .running ∧
        tm.deadline ≤ now ∧ s1 = drain w { s with timers := fireTimer s.timers i })
    ∨ (ev = .close ∧ s.inClosed = true ∧ s.t = none ∧ s1 = { s with status := .done })
    ∨ (∃ i, ev = .close ∧ s.inClosed = true ∧ s.t = some i ∧
        s1 = { s with timers := stopTimer s.timers i, status := .done })) := by
  obtain ⟨d, t, e, inClosed, buf, timers, calls, status⟩ := s
  cases status <;> cases t <;> cases ev <;> cases inClosed <;>
    simp only [step, ne_eq, not_true_eq_false, not_false_eq_true, if_true, if_false,
      Bool.false_eq_true, reduceCtorEq, Option.some.injEq] at h
  all_goals first
    | (subst h; simp)
    | skip
  all_goals
    rename_i i
    refine ⟨rfl, ?_⟩
    cases htm : timers[i]? with
    | none => simp [htm] at h
    | some tm =>
      simp only [htm] at h
      by_cases hc : tm.state = .running ∧ tm.deadline ≤ now
      · simp only [hc, and_self, if_true, Option.some.injEq] at h
        subst h
        simp only [reduceCtorEq, false_and, exists_false, and_false, or_false, false_or,
          true_and, Option.some.injEq, exists_eq_left', and_true, exists_and_left]
        exact ⟨tm, htm, hc.1, hc.2⟩
      · simp [hc] at h

/-! ## In-order delivery -/

theorem drainCalls_flatten (calls : List Bytes) (p : Bytes) :
    (drainCalls calls p).flatten = calls.flatten ++ p := by
  unfold drainCalls
  by_cases hp : p = []
  · simp [hp]
  · simp [hp]

theorem payloads_append (xs ys : List (Int × Event)) :
    payloads (xs ++ ys) = payloads xs ++ payloads ys := by
  induction xs with
  | nil => rfl
  | cons x xs ih =>
    obtain ⟨now, ev⟩ := x
    cases ev <;> simp [payloads, ih]

/-- One iteration keeps the read offset at 0 and moves bytes only from the
payload to the buffer and from the buffer to the sink. -/
theorem step_delivery (w : Sink) (s s1 : State) (now : Int) (ev : Event)
    (h : step w s now ev = some s1) (ho : s.buf.off = 0) :
    s1.buf.off = 0 ∧
    s1.calls.flatten ++ s1.buf.buf
      = s.calls.flatten ++ s.buf.buf ++ (payloads [(now, ev)]).flatten := by
  obtain ⟨_, hc⟩ := step_cases w s s1 now ev h
  rcases hc with ⟨data, rfl, _, _, rfl⟩ | ⟨data, i, rfl, _, _, rfl⟩ | ⟨rfl, _, rfl⟩
    | ⟨i, rfl, _, rfl⟩ | ⟨i, tm, rfl, _, _, _, _, rfl⟩ | ⟨rfl, _, _, rfl⟩ | ⟨i, rfl, _, _, rfl⟩
  · simp [Buffer.Write, payloads, ho]
  · simp [Buffer.Write, payloads, ho]
  · simp [payloads, ho]
  · rw [drain_off w { s with timers := stopTimer s.timers i } ho]
    simp [payloads, drainCalls_flatten, Buffer.zero]
  · rw [drain_off w { s with timers := fireTimer s.timers i } ho]
    simp [payloads, drainCalls_flatten, Buffer.zero]
  · simp [payloads, ho]
  · simp [payloads, ho]

theorem run_delivery (w : Sink) (evs : List (Int × Event)) (s s1 : State)
    (h : run w s evs = some s1) (ho : s.buf.off = 0) :
    s1.buf.off = 0 ∧
    s1.calls.flatten ++ s1.buf.buf = s.calls.flatten ++ s.buf.buf ++ (payloads evs).flatten := by
  induction evs generalizing s with
  | nil =>
    simp only [run, Option.some.injEq] at h
    subst h
    simp [payloads, ho]
  | cons x evs ih =>
    obtain ⟨now, ev⟩ := x
    simp only [run] at h
    cases hs : step w s now ev with
    | none => simp [hs] at h
    | some s2 =>
      rw [hs] at h
      obtain ⟨ho2, h2⟩ := step_delivery w s s2 now ev hs ho
      obtain ⟨ho1, h1⟩ := ih s2 h ho2
      refine ⟨ho1, ?_⟩
      rw [h1, h2]
      have : payloads ((now, ev) :: evs) = payloads [(now, ev)] ++ payloads evs :=
        payloads_append [(now, ev)] evs
      rw [this, List.flatten_append, List.append_assoc]

/-- C2. After the loop has handled any sequence of messages from construction,
the arguments of the sink calls made so far, concatenated, followed by the
contents of the buffer, are the payloads of the writes handled so far,
concatenated in the order the loop received them. -/
theorem in_order_delivery (w : Sink) (d : Int) (evs : List (Int × Event)) (s1 : State)
    (h : run w (New d) evs = some s1) :
    s1.calls.flatten ++ s1.buf.unread = (payloads evs).flatten := by
  obtain ⟨ho, h1⟩ := run_delivery w evs (New d) s1 h rfl
  rw [unread_of_off s1.buf ho, h1]
  simp [New, Buffer.zero]

/-- C2 on a run with a failing drain, a flush and a pending write. -/
theorem in_order_delivery_witness :
    run (failNth 0) (New 16) [(0, .write [1, 2]), (16, .timer), (20, .write [3]), (21, .flush),
        (30, .write [4])]
      = some { d := 16, t := some 2, e := some (.other 7), inClosed := false, buf := ⟨[4], 0⟩,
               timers := [⟨16, .fired⟩, ⟨36, .stopped⟩, ⟨46, .running⟩],
               calls := [[1, 2], [3]], status := .running }
    ∧ ([[1, 2], [3]] : List Bytes).flatten ++ (⟨[4], 0⟩ : Buffer).unread
        = (payloads [(0, .write [1, 2]), (16, .timer), (20, .write [3]), (21, .flush),
            (30, .write [4])]).flatten :=
  ⟨by decide,
    in_order_delivery (failNth 0) 16
      [(0, .write [1, 2]), (16, .timer), (20, .write [3]), (21, .flush), (30, .write [4])]
      { d := 16, t := some 2, e := some (.other 7), inClosed := false, buf := ⟨[4], 0⟩,
        timers := [⟨16, .fired⟩, ⟨36, .stopped⟩, ⟨46, .running⟩],
        calls := [[1, 2], [3]], status := .running }
      (by decide)⟩

/-! ## Idle and armed -/

theorem Inv_New (d : Int) : Inv (New d) [] :=
  ⟨rfl, rfl, rfl, by simp [New], rfl, by simp [New]⟩

theorem Inv_step (w : Sink) (s s1 : State) (now : Int) (ev : Event) (acc : List Bytes)
    (h : step w s now ev = some s1) (hi : Inv s acc) : Inv s1 (pendingStep acc ev) := by
  obtain ⟨hrun, hopen, hoff, harm, hheld, hlive⟩ := hi
  obtain ⟨_, hc⟩ := step_cases w s s1 now ev h
  rcases hc with ⟨data, rfl, _, _, rfl⟩ | ⟨data, i, rfl, _, ht, rfl⟩ | ⟨rfl, ht, rfl⟩
    | ⟨i, rfl, _, rfl⟩ | ⟨i, tm, rfl, _, _, _, _, rfl⟩ | ⟨rfl, hcl, _, rfl⟩
    | ⟨i, rfl, hcl, _, rfl⟩
  · refine ⟨hrun, hopen, hoff, by simp [pendingStep], ?_, ?_⟩
    · simp [Buffer.Write, pendingStep, hheld]
    · intro i hi
      simp only [Option.some.injEq] at hi
      subst hi
      exact ⟨_, List.getElem?_concat_length _ _, rfl⟩
  · refine ⟨hrun, hopen, hoff, by simp [pendingStep, ht], ?_, hlive⟩
    simp [Buffer.Write, pendingStep, hheld]
  · refine ⟨hrun, hopen, hoff, by simp [pendingStep, ht], ?_, hlive⟩
    have : acc = [] := by
      by_contra hne
      exact (harm.mpr hne) ht
    simp [pendingStep, hheld, this]
  · rw [drain_off w { s with timers := stopTimer s.timers i } hoff]
    exact ⟨hrun, hopen, rfl, by simp [pendingStep], rfl, by simp⟩
  · rw [drain_off w { s with timers := fireTimer s.timers i } hoff]
    exact ⟨hrun, hopen, rfl, by simp [pendingStep], rfl, by simp⟩
  · rw [hopen] at hcl
    exact absurd hcl (by decide)
  · rw [hopen] at hcl
    exact absurd hcl (by decide)

theorem Inv_run (w : Sink) (evs : List (Int × Event)) (s s1 : State) (acc : List Bytes)
    (h : run w s evs = some s1) (hi : Inv s acc) :
    Inv s1 (evs.foldl (fun acc x => pendingStep acc x.2) acc) := by
  induction evs generalizing s acc with
  | nil =>
    simp only [run, Option.some.injEq] at h
    subst h
    exact hi
  | cons x evs ih =>
    obtain ⟨now, ev⟩ := x
    simp only [run] at h
    cases hs : step w s now ev with
    | none => simp [hs] at h
    | some s2 =>
      rw [hs] at h
      exact ih s2 (pendingStep acc ev) h (Inv_step w s s2 now ev acc hs hi)

/-- Between messages, a nil timer reference goes with the zero buffer. -/
theorem Inv_idle_buf (s : State) (acc : List Bytes) (hi : Inv s acc) (ht : s.t = none) :
    s.buf = Buffer.zero := by
  have hacc : acc = [] := by
    by_contra hne
    exact (hi.armed.mpr hne) ht
  have hb : s.buf.buf = [] := by rw [hi.held, hacc]; rfl
  have ho := hi.off
  cases hbuf : s.buf with
  | mk b o =>
    rw [hbuf] at hb ho
    simp only at hb ho
    rw [hb, ho]
    rfl

/-- C3, as stated, fails: after a zero-length write accepted by a freshly
constructed writer the timer is armed and the buffer is empty. -/
theorem armed_iff_nonempty_counterexample :
    ¬ (∀ (w : Sink) (d : Int) (evs : List (Int × Event)) (s1 : State),
        run w (New d) evs = some s1 → (s1.t ≠ none ↔ s1.buf.unread ≠ [])) := by
  intro hall
  have h := hall okSink 16 [(0, .write [])]
    { d := 16, t := some 0, e := none, inClosed := false, buf := ⟨[], 0⟩,
      timers := [⟨16, .running⟩], calls := [], status := .running } (by decide)
  exact absurd (h.mp (by decide)) (by decide)

/-- C3, amended. In every state reached from construction by write, flush and
timer-expiry messages, the timer reference is set if and only if at least one
write, of any length, has been accepted since the last drain; it then points
to a running timer, and the buffer holds exactly the payloads accepted since the
last drain.  So a non-empty buffer implies an armed timer, and the timer is
armed over an empty buffer only when every payload accepted since the last
drain was empty. -/
theorem armed_iff_pending (w : Sink) (d : Int) (evs : List (Int × Event)) (s1 : State)
    (h : run w (New d) evs = some s1) :
    (s1.t ≠ none ↔ pending evs ≠ [])
    ∧ (∀ i, s1.t = some i → ∃ tm, s1.timers[i]? = some tm ∧ tm.state = .running)
    ∧ s1.buf.unread = (pending evs).flatten
    ∧ (s1.buf.unread ≠ [] → s1.t ≠ none)
    ∧ (s1.t ≠ none → s1.buf.unread = [] → ∀ p ∈ pending evs, p = []) := by
  have hi := Inv_run w evs (New d) s1 [] h (Inv_New d)
  have hu : s1.buf.unread = (pending evs).flatten := by
    rw [unread_of_off s1.buf hi.off]
    exact hi.held
  refine ⟨hi.armed, hi.live, hu, ?_, ?_⟩
  · intro hne
    rw [hu] at hne
    apply hi.armed.mpr
    intro hnil
    apply hne
    unfold pending
    rw [hnil]
    rfl
  · intro _ hemp p hp
    rw [hu] at hemp
    exact List.flatten_eq_nil_iff.mp hemp p hp

/-- C3, amended, on the run of the counterexample followed by a flush, a write and
the timer expiry. -/
theorem armed_iff_pending_witness :
    run okSink (New 16) [(0, .write []), (1, .flush), (2, .write [9]), (3, .write [])]
      = some { d := 16, t := some 1, e := none, inClosed := false, buf := ⟨[9], 0⟩,
               timers := [⟨16, .stopped⟩, ⟨18, .running⟩], calls := [], status := .running }
    ∧ pending [(0, .write []), (1, .flush), (2, .write [9]), (3, .write [])] = [[9], []]
    ∧ ((some 1 : Option Nat) ≠ none
        ↔ pending [(0, .write []), (1, .flush), (2, .write [9]), (3, .write [])] ≠ []) :=
  ⟨by decide, by decide,
    (armed_iff_pending okSink 16
      [(0, .write []), (1, .flush), (2, .write [9]), (3, .write [])]
      { d := 16, t := some 1, e := none, inClosed := false, buf := ⟨[9], 0⟩,
        timers := [⟨16, .stopped⟩, ⟨18, .running⟩], calls := [], status := .running }
      (by decide)).1⟩

/-! ## The timer -/

theorem stopTimer_running (ts : List Timer) (i j : Nat) (tm : Timer)
    (h : (stopTimer ts i)[j]? = some tm) (hr : tm.state = .running) :
    j ≠ i ∧ ts[j]? = some tm := by
  unfold stopTimer at h
  rw [List.getElem?_modify] at h
  cases hj : ts[j]? with
  | none => simp [hj] at h
  | some t0 =>
    rw [hj] at h
    simp only [Option.map_eq_map, Option.map_some', Option.some.injEq] at h
    by_cases hij : i = j
    · simp only [hij, if_true] at h
      by_cases h0 : t0.state = .running
      · simp only [h0, if_true] at h
        rw [← h] at hr
        simp at hr
      · simp only [h0, if_false] at h
        rw [h] at h0
        exact absurd hr h0
    · simp only [hij, if_false] at h
      exact ⟨fun hji => hij hji.symm, by rw [h]⟩

theorem fireTimer_running (ts : List Timer) (i j : Nat) (tm : Timer)
    (h : (fireTimer ts i)[j]? = some tm) (hr : tm.state = .running) :
    j ≠ i ∧ ts[j]? = some tm := by
  unfold fireTimer at h
  rw [List.getElem?_modify] at h
  cases hj : ts[j]? with
  | none => simp [hj] at h
  | some t0 =>
    rw [hj] at h
    simp only [Option.map_eq_map, Option.map_some', Option.some.injEq] at h
    by_cases hij : i = j
    · simp only [hij, if_true] at h
      rw [← h] at hr
      simp at hr
    · simp only [hij, if_false] at h
      exact ⟨fun hji => hij hji.symm, by rw [h]⟩

theorem OneTimer_step (w : Sink) (s s1 : State) (now : Int) (ev : Event)
    (h : step w s now ev = some s1) (hi : OneTimer s) : OneTimer s1 := by
  obtain ⟨_, hc⟩ := step_cases w s s1 now ev h
  rcases hc with ⟨data, rfl, _, ht, rfl⟩ | ⟨data, i, rfl, _, ht, rfl⟩ | ⟨rfl, ht, rfl⟩
    | ⟨i, rfl, ht, rfl⟩ | ⟨i, tm, rfl, ht, _, _, _, rfl⟩ | ⟨rfl, _, _, rfl⟩
    | ⟨i, rfl, _, ht, rfl⟩
  · intro j tm hj hr
    show some s.timers.length = some j
    by_cases hlt : j < s.timers.length
    · have hj1 : (s.timers ++ [(⟨now + s.d, .running⟩ : Timer)])[j]? = some tm := hj
      rw [List.getElem?_append_left hlt] at hj1
      have := hi j tm hj1 hr
      rw [ht] at this
      simp at this
    · have hlen : j < (s.timers ++ [(⟨now + s.d, .running⟩ : Timer)]).length := by
        by_contra hge
        have hj1 : (s.timers ++ [(⟨now + s.d, .running⟩ : Timer)])[j]? = some tm := hj
        rw [List.getElem?_eq_none (by omega)] at hj1
        simp at hj1
      simp only [List.length_append, List.length_singleton] at hlen
      congr 1
      omega
  · exact hi
  · exact hi
  · intro j tm hj hr
    rw [(drain_frame w _).2.2.2.1] at hj
    obtain ⟨hne, hj0⟩ := stopTimer_running s.timers i j tm hj hr
    have := hi j tm hj0 hr
    rw [ht] at this
    simp only [Option.some.injEq] at this
    exact absurd this.symm hne
  · intro j tm1 hj hr
    rw [(drain_frame w _).2.2.2.1] at hj
    obtain ⟨hne, hj0⟩ := fireTimer_running s.timers i j tm1 hj hr
    have := hi j tm1 hj0 hr
    rw [ht] at this
    simp only [Option.some.injEq] at this
    exact absurd this.symm hne
  · exact hi
  · intro j tm hj hr
    obtain ⟨_, hj0⟩ := stopTimer_running s.timers i j tm hj hr
    exact hi j tm hj0 hr

theorem OneTimer_run (w : Sink) (evs : List (Int × Event)) (s s1 : State)
    (h : run w s evs = some s1) (hi : OneTimer s) : OneTimer s1 := by
  induction evs generalizing s with
  | nil =>
    simp only [run, Option.some.injEq] at h
    subst h
    exact hi
  | cons x evs ih =>
    obtain ⟨now, ev⟩ := x
    simp only [run] at h
    cases hs : step w s now ev with
    | none => simp [hs] at h
    | some s2 =>
      rw [hs] at h
      exact ih s2 h (OneTimer_step w s s2 now ev hs hi)

/-- C4. In every state `s` reached from construction:
* a write accepted while a timer is referenced appends its payload to the buffer
  and changes nothing else: same timer reference, same timers (none created,
  none stopped, none re-armed);
* when no timer is referenced, a write at `t0` followed by any number of writes
  at any instants leaves one new timer, with deadline `t0 + d`, and the loop
  receives its expiry exactly at the instants from `t0 + d` on;
* a message that changes the number of timers is a write handled while no timer
  is referenced;
* at most one timer is running. -/
theorem fixed_window (w : Sink) (d : Int) (evs : List (Int × Event)) (s : State)
    (hreach : run w (New d) evs = some s) :
    (∀ i now data, s.t = some i →
        ∃ s1, step w s now (.write data) = some s1
          ∧ s1.buf = s.buf.Write data ∧ s1.t = s.t ∧ s1.timers = s.timers
          ∧ s1.e = s.e ∧ s1.calls = s.calls ∧ s1.status = s.status ∧ s1.d = s.d
          ∧ s1.inClosed = s.inClosed)
    ∧ (s.t = none → ∀ t0 d1 ws,
        ∃ sa, run w s (writeEvents ((t0, d1) :: ws)) = some sa
          ∧ sa.t = some s.timers.length
          ∧ sa.timers = s.timers ++ [{ deadline := t0 + s.d, state := .running }]
          ∧ (∀ now, (step w sa now .timer).isSome ↔ t0 + s.d ≤ now))
    ∧ (∀ now ev s1, step w s now ev = some s1 → s1.timers.length ≠ s.timers.length →
        s.t = none ∧ (∃ data, ev = .write data) ∧ s1.timers.length = s.timers.length + 1)
    ∧ (∀ (j k : Nat) (tj tk : Timer), s.timers[j]? = some tj → tj.state = .running →
        s.timers[k]? = some tk → tk.state = .running → j = k) := by
  have hi := Inv_run w evs (New d) s [] hreach (Inv_New d)
  have hone : OneTimer s :=
    OneTimer_run w evs (New d) s hreach (by intro j tm hj; simp [New] at hj)
  refine ⟨?_, ?_, ?_, ?_⟩
  · intro i now data ht
    rw [step_write_armed w s now data i hi.running hi.isOpen ht]
    exact ⟨_, rfl, rfl, rfl, rfl, rfl, rfl, rfl, rfl, rfl⟩
  · intro ht t0 d1 ws
    obtain ⟨sa, hw, hsta, _, hta, _, htma, _, _, _⟩ :=
      run_writes_idle w s t0 d1 ws hi.running hi.isOpen ht
    have htm : sa.timers[s.timers.length]? = some ⟨t0 + s.d, .running⟩ := by
      rw [htma]; exact List.getElem?_concat_length _ _
    refine ⟨sa, hw, hta, htma, ?_⟩
    intro now
    constructor
    · intro hsome
      obtain ⟨s2, hs2⟩ := Option.isSome_iff_exists.mp hsome
      obtain ⟨_, hc⟩ := step_cases w sa s2 now .timer hs2
      rcases hc with ⟨_, h, _⟩ | ⟨_, _, h, _⟩ | ⟨h, _⟩ | ⟨_, h, _⟩
        | ⟨i, tm, _, hti, htmi, _, hdl, _⟩ | ⟨h, _⟩ | ⟨_, h, _⟩
      · cases h
      · cases h
      · cases h
      · cases h
      · rw [hta] at hti
        simp only [Option.some.injEq] at hti
        subst hti
        rw [htm] at htmi
        simp only [Option.some.injEq] at htmi
        subst htmi
        exact hdl
      · cases h
      · cases h
    · intro hnow
      rw [step_timer_armed w sa now _ _ hsta hta htm rfl hnow]
      rfl
  · intro now ev s1 hs hlen
    obtain ⟨_, hc⟩ := step_cases w s s1 now ev hs
    rcases hc with ⟨data, rfl, _, ht, rfl⟩ | ⟨data, i, rfl, _, ht, rfl⟩ | ⟨rfl, ht, rfl⟩
      | ⟨i, rfl, ht, rfl⟩ | ⟨i, tm, rfl, ht, _, _, _, rfl⟩ | ⟨rfl, _, _, rfl⟩
      | ⟨i, rfl, _, ht, rfl⟩
    · exact ⟨ht, ⟨data, rfl⟩, by simp⟩
    · exact absurd rfl hlen
    · exact absurd rfl hlen
    · rw [(drain_frame w _).2.2.2.1] at hlen
      simp [stopTimer] at hlen
    · rw [(drain_frame w _).2.2.2.1] at hlen
      simp [fireTimer] at hlen
    · exact absurd rfl hlen
    · simp [stopTimer] at hlen
  · intro j k tj tk hj hrj hk hrk
    have h1 := hone j tj hj hrj
    have h2 := hone k tk hk hrk
    rw [h1] at h2
    simpa using h2

/-- C4 on a writer that has already drained once: the state reached by a write and
a flush has no timer referenced; a write at 100 and two more at 107 and 115 leave
the deadline at 116. -/
theorem fixed_window_witness :
    run okSink (New 16) [(0, .write [1]), (3, .flush)]
      = some { d := 16, t := none, e := none, inClosed := false, buf := ⟨[], 0⟩,
               timers := [⟨16, .stopped⟩], calls := [[1]], status := .running }
    ∧ run okSink
        ({ d := 16, t := none, e := none, inClosed := false, buf := ⟨[], 0⟩,
           timers := [⟨16, .stopped⟩], calls := [[1]], status := .running } : State)
        (writeEvents ((100, [2]) :: [(107, [3]), (115, [4])]))
      = some { d := 16, t := some 1, e := none, inClosed := false, buf := ⟨[2, 3, 4], 0⟩,
               timers := [⟨16, .stopped⟩, ⟨116, .running⟩], calls := [[1]],
               status := .running }
    ∧ (∀ (j k : Nat) (tj tk : Timer), ([⟨16, .stopped⟩] : List Timer)[j]? = some tj → tj.state = .running →
        ([⟨16, .stopped⟩] : List Timer)[k]? = some tk → tk.state = .running → j = k) :=
  ⟨by decide, by decide,
    (fixed_window okSink 16 [(0, .write [1]), (3, .flush)]
      { d := 16, t := none, e := none, inClosed := false, buf := ⟨[], 0⟩,
        timers := [⟨16, .stopped⟩], calls := [[1]], status := .running }
      (by decide)).2.2.2⟩

/-! ## Explicit flush -/

/-- With no timer referenced, messages other than writes never reach the sink
and leave buffer, timer reference and error alone. -/
theorem run_no_write_idle (w : Sink) (evs : List (Int × Event)) (s s2 : State)
    (ht : s.t = none) (hnw : ∀ x ∈ evs, ∀ p, x.2 ≠ Event.write p)
    (h : run w s evs = some s2) :
    s2.calls = s.calls ∧ s2.t = none ∧ s2.buf = s.buf ∧ s2.e = s.e ∧ s2.timers = s.timers := by
  induction evs generalizing s with
  | nil =>
    simp only [run, Option.some.injEq] at h
    subst h
    exact ⟨rfl, ht, rfl, rfl, rfl⟩
  | cons x evs ih =>
    obtain ⟨now, ev⟩ := x
    simp only [run] at h
    cases hs : step w s now ev with
    | none => simp [hs] at h
    | some s3 =>
      rw [hs] at h
      have hnw1 : ∀ x ∈ evs, ∀ p, x.2 ≠ Event.write p :=
        fun x hx => hnw x (List.mem_cons_of_mem _ hx)
      have hev : ∀ p, ev ≠ Event.write p := hnw (now, ev) (List.mem_cons_self _ _)
      obtain ⟨_, hc⟩ := step_cases w s s3 now ev hs
      rcases hc with ⟨data, rfl, _⟩ | ⟨data, i, rfl, _⟩ | ⟨rfl, _, h3⟩
        | ⟨i, rfl, hti, _⟩ | ⟨i, tm, rfl, hti, _⟩ | ⟨rfl, _, _, rfl⟩ | ⟨i, rfl, _, hti, _⟩
      · exact absurd rfl (hev data)
      · exact absurd rfl (hev data)
      · rw [h3] at h
        exact ih s ht hnw1 h
      · rw [ht] at hti; cases hti
      · rw [ht] at hti; cases hti
      · exact ih { s with status := .done } ht hnw1 h
      · rw [ht] at hti; cases hti

/-- C5, as stated, fails for an empty payload: after the write of `[]` from a
freshly constructed writer and a flush, the sink has received no call at all. -/
theorem explicit_flush_counterexample :
    ¬ (∀ (w : Sink) (d : Int) (t0 now : Int) (data : Bytes),
        ∃ s1, run w (New d) [(t0, .write data), (now, .flush)] = some s1
          ∧ s1.calls = [data]) := by
  intro hall
  obtain ⟨s1, h1, h2⟩ := hall okSink 16 0 1 []
  have h3 : run okSink (New 16) [(0, .write []), (1, .flush)]
      = some { d := 16, t := none, e := none, inClosed := false, buf := ⟨[], 0⟩,
               timers := [⟨16, .stopped⟩], calls := [], status := .running } := by decide
  rw [h3] at h1
  simp only [Option.some.injEq] at h1
  rw [← h1] at h2
  exact absurd h2 (by decide)

/-- C5, amended. In every state `s` reached from construction:
* a flush request handled while a timer is referenced stops that timer, passes
  the whole buffer to the sink in one call (no call when the buffer is empty),
  and leaves the buffer empty and the timer reference nil;
* when no timer is referenced, a write of a non-empty `data` followed at once by
  a flush makes the sink receive exactly one more call, with argument `data`;
  from then on the loop refuses every timer expiry, and no sequence of messages
  without a write makes a further sink call. -/
theorem explicit_flush (w : Sink) (d : Int) (evs0 : List (Int × Event)) (s : State)
    (h : run w (New d) evs0 = some s) :
    (∀ (i : Nat) (now : Int), s.t = some i →
        ∃ s1, step w s now .flush = some s1
          ∧ s1.timers = stopTimer s.timers i
          ∧ (∀ tm, s1.timers[i]? = some tm → tm.state ≠ .running)
          ∧ s1.calls = (if s.buf.unread = [] then s.calls else s.calls ++ [s.buf.unread])
          ∧ s1.buf = Buffer.zero ∧ s1.t = none ∧ s1.status = .running)
    ∧ (s.t = none →
        ∀ (t0 now : Int) (data : Bytes), data ≠ [] →
        ∃ s1, run w s [(t0, .write data), (now, .flush)] = some s1
          ∧ s1.calls = s.calls ++ [data]
          ∧ s1.buf = Buffer.zero ∧ s1.t = none ∧ s1.status = .running
          ∧ (∀ t, step w s1 t .timer = none)
          ∧ (∀ evs s2, (∀ x ∈ evs, ∀ p, x.2 ≠ Event.write p) → run w s1 evs = some s2 →
              s2.calls = s1.calls)) := by
  have hi := Inv_run w evs0 (New d) s [] h (Inv_New d)
  have hst := hi.running
  have hopen := hi.isOpen
  have ho := hi.off
  constructor
  · intro i now ht
    obtain ⟨s1, h1, hc, _, hb, ht1, hs1, htm, _⟩ := flush_armed w s now i hst ht ho
    refine ⟨s1, h1, htm, ?_, ?_, hb, ht1, hs1⟩
    · intro tm htmi hr
      rw [htm] at htmi
      exact (stopTimer_running s.timers i i tm htmi hr).1 rfl
    · rw [hc, unread_of_off s.buf ho]
      rfl
  · intro ht t0 now data hne
    have hbuf := Inv_idle_buf s _ hi ht
    have hb : s.buf.buf = [] := by rw [hbuf]; rfl
    obtain ⟨sa, hw, hsta, _, hta, hba, _, hca, _, _⟩ :=
      run_writes_idle w s t0 data [] hst hopen ht
    have hoa : sa.buf.off = 0 := by rw [hba]; exact ho
    have hbb : sa.buf.buf = data := by rw [hba]; simp [hb]
    obtain ⟨s1, h1, hc, _, hb1, ht1, hs1, _⟩ := flush_armed w sa now _ hsta hta hoa
    have hrun : run w s [(t0, .write data), (now, .flush)] = some s1 := by
      have : [(t0, Event.write data), (now, Event.flush)]
          = writeEvents ((t0, data) :: []) ++ [(now, Event.flush)] := rfl
      rw [this, run_append, hw]
      simp only [Option.bind, run_single, h1]
    refine ⟨s1, hrun, ?_, hb1, ht1, hs1, ?_, ?_⟩
    · rw [hc, hbb, hca]
      simp only [drainCalls, hne, if_false]
    · intro t
      simp [step, hs1, ht1]
    · intro evs s2 hnw h2
      exact (run_no_write_idle w evs s1 s2 ht1 hnw h2).1

/-- C5, amended, on a freshly constructed writer and the payload "x". -/
theorem explicit_flush_witness :
    ∃ s1, run okSink (New 16) [(0, .write [120]), (1, .flush)] = some s1
      ∧ s1.calls = (New 16).calls ++ [[120]]
      ∧ s1.buf = Buffer.zero ∧ s1.t = none ∧ s1.status = .running
      ∧ (∀ t, step okSink s1 t .timer = none)
      ∧ (∀ evs s2, (∀ x ∈ evs, ∀ p, x.2 ≠ Event.write p) → run okSink s1 evs = some s2 →
          s2.calls = s1.calls) :=
  (explicit_flush okSink 16 [] (New 16) rfl).2 rfl 0 1 [120] (by decide)

/-! ## Flush with nothing to flush -/

/-- C6. A flush request handled while no timer is referenced leaves the whole
state as it is: no sink call, same buffer, same timer reference, same Last
Error.  So does any number of them in a row, and any number of `Flush` calls on
a freshly constructed writer leaves the sink without a call. -/
theorem idle_flush_noop (w : Sink) (s : State) (hst : s.status = .running) (ht : s.t = none) :
    (∀ now, Flush w s now = some s)
    ∧ (∀ ts : List Int, run w s (ts.map (fun t => (t, Event.flush))) = some s)
    ∧ (∀ (d : Int) (ts : List Int),
        ∃ s1, run w (New d) (ts.map (fun t => (t, Event.flush))) = some s1 ∧ s1.calls = []) := by
  have hrun : ∀ (s0 : State), s0.status = .running → s0.t = none →
      ∀ ts : List Int, run w s0 (ts.map (fun t => (t, Event.flush))) = some s0 := by
    intro s0 h1 h2 ts
    induction ts with
    | nil => rfl
    | cons t ts ih =>
      simp only [List.map_cons, run, step_flush_idle w s0 t h1 h2]
      exact ih
  exact ⟨fun now => step_flush_idle w s now hst ht, hrun s hst ht,
    fun d ts => ⟨New d, hrun (New d) rfl rfl ts, rfl⟩⟩

/-- C6 on a freshly constructed writer. -/
theorem idle_flush_noop_witness :
    (∀ now, Flush okSink (New 16) now = some (New 16))
    ∧ (∀ ts : List Int, run okSink (New 16) (ts.map (fun t => (t, Event.flush))) = some (New 16))
    ∧ (∀ (d : Int) (ts : List Int),
        ∃ s1, run okSink (New d) (ts.map (fun t => (t, Event.flush))) = some s1
          ∧ s1.calls = []) :=
  idle_flush_noop okSink (New 16) rfl rfl

/-! ## Drains that fail -/

/-- One write from an idle state followed by a drain: the payload reaches the
sink in one call, unless it is empty. -/
theorem write_then_drain (w : Sink) (s : State) (t1 : Int) (data : Bytes)
    (hst : s.status = .running) (hopen : s.inClosed = false) (ht : s.t = none)
    (hbuf : s.buf = Buffer.zero) :
    (∀ t2, ∃ s3, run w s [(t1, .write data), (t2, .flush)] = some s3
        ∧ s3.calls = (if data = [] then s.calls else s.calls ++ [data])
        ∧ s3.buf = Buffer.zero ∧ s3.t = none ∧ s3.status = .running)
    ∧ (∀ t2, t1 + s.d ≤ t2 → ∃ s3, run w s [(t1, .write data), (t2, .timer)] = some s3
        ∧ s3.calls = (if data = [] then s.calls else s.calls ++ [data])
        ∧ s3.buf = Buffer.zero ∧ s3.t = none ∧ s3.status = .running) := by
  obtain ⟨sa, hw, hsta, _, hta, hba, htma, hca, _, _⟩ :=
    run_writes_idle w s t1 data [] hst hopen ht
  have hb : s.buf.buf = [] := by rw [hbuf]; rfl
  have ho : s.buf.off = 0 := by rw [hbuf]; rfl
  have hoa : sa.buf.off = 0 := by rw [hba]; exact ho
  have hbb : sa.buf.buf = data := by rw [hba]; simp [hb]
  have hsplit : ∀ (t2 : Int) (ev : Event),
      [(t1, Event.write data), (t2, ev)] = writeEvents ((t1, data) :: []) ++ [(t2, ev)] :=
    fun _ _ => rfl
  constructor
  · intro t2
    obtain ⟨s3, h3, hc3, _, hb3, ht3, hs3, _⟩ := flush_armed w sa t2 _ hsta hta hoa
    refine ⟨s3, ?_, ?_, hb3, ht3, hs3⟩
    · rw [hsplit, run_append, hw]
      simp only [Option.bind, run_single, h3]
    · rw [hc3, hbb, hca]; rfl
  · intro t2 hdl
    have htm : sa.timers[s.timers.length]? = some ⟨t1 + s.d, .running⟩ := by
      rw [htma]; exact List.getElem?_concat_length _ _
    obtain ⟨s3, h3, hc3, _, hb3, ht3, hs3, _⟩ :=
      timer_armed w sa t2 _ _ hsta hta hoa htm rfl hdl
    refine ⟨s3, ?_, ?_, hb3, ht3, hs3⟩
    · rw [hsplit, run_append, hw]
      simp only [Option.bind, run_single, h3]
    · rw [hc3, hbb, hca]; rfl

/-- The state after a drain is the same for every sink, apart from Last Error. -/
theorem drain_two_sinks (w w2 : Sink) (s : State) (ho : s.buf.off = 0) :
    drain w s = { drain w2 s with e := (drain w s).e } := by
  rw [drain_off w s ho, drain_off w2 s ho]

/-- C7. Take a state reached from construction in which a timer is referenced
and the buffer is not empty, and let the sink answer the offer of that buffer
with the error `e`.  The drain, by a flush request or by the expiry of the
timer, is handled; it records `e` as Last Error, leaves the buffer empty and the
timer reference nil, and the loop keeps running.  Whatever another sink would
have answered, the state it would have left differs at most in Last Error.  A
later write followed by a drain reaches the sink again: one more call, with the
payload as argument (none when the payload is empty). -/
theorem failing_drain (w : Sink) (d : Int) (evs0 : List (Int × Event)) (s : State)
    (i : Nat) (now : Int) (ev : Event) (e : GoError)
    (h : run w (New d) evs0 = some s) (ht : s.t = some i) (hbuf : s.buf.unread ≠ [])
    (hev : ev = .flush ∨ (ev = .timer ∧ ∃ tm, s.timers[i]? = some tm ∧ tm.deadline ≤ now))
    (herr : (w.write s.calls s.buf.unread).2 = some e) :
    ∃ s1, step w s now ev = some s1
      ∧ s1.e = some e ∧ s1.buf = Buffer.zero ∧ s1.t = none ∧ s1.status = .running
      ∧ s1.calls = s.calls ++ [s.buf.unread]
      ∧ (∀ (w2 : Sink) (s2 : State), step w2 s now ev = some s2 → s1 = { s2 with e := some e })
      ∧ (∀ (t1 t2 : Int) (data : Bytes),
          ∃ s3, run w s1 [(t1, .write data), (t2, .flush)] = some s3
            ∧ s3.calls = (if data = [] then s1.calls else s1.calls ++ [data])
            ∧ s3.status = .running)
      ∧ (∀ (t1 t2 : Int) (data : Bytes), t1 + s.d ≤ t2 →
          ∃ s3, run w s1 [(t1, .write data), (t2, .timer)] = some s3
            ∧ s3.calls = (if data = [] then s1.calls else s1.calls ++ [data])
            ∧ s3.status = .running) := by
  have hi := Inv_run w evs0 (New d) s [] h (Inv_New d)
  have hst := hi.running
  have hopen := hi.isOpen
  have ho := hi.off
  rw [unread_of_off s.buf ho] at hbuf herr ⊢
  have hde : drainErr w s.calls s.buf.buf = some e := by
    simp [drainErr, hbuf, offerErr, herr]
  have hdc : drainCalls s.calls s.buf.buf = s.calls ++ [s.buf.buf] := by
    simp [drainCalls, hbuf]
  have key : ∀ s1, (∃ ts, s1 = drain w { s with timers := ts } ∧
        ∀ (w2 : Sink) (s2 : State), step w2 s now ev = some s2 →
          s2 = drain w2 { s with timers := ts }) →
      step w s now ev = some s1 →
      step w s now ev = some s1
      ∧ s1.e = some e ∧ s1.buf = Buffer.zero ∧ s1.t = none ∧ s1.status = .running
      ∧ s1.calls = s.calls ++ [s.buf.buf]
      ∧ (∀ (w2 : Sink) (s2 : State), step w2 s now ev = some s2 → s1 = { s2 with e := some e })
      ∧ (∀ (t1 t2 : Int) (data : Bytes),
          ∃ s3, run w s1 [(t1, .write data), (t2, .flush)] = some s3
            ∧ s3.calls = (if data = [] then s1.calls else s1.calls ++ [data])
            ∧ s3.status = .running)
      ∧ (∀ (t1 t2 : Int) (data : Bytes), t1 + s.d ≤ t2 →
          ∃ s3, run w s1 [(t1, .write data), (t2, .timer)] = some s3
            ∧ s3.calls = (if data = [] then s1.calls else s1.calls ++ [data])
            ∧ s3.status = .running) := by
    intro s1 ⟨ts, hs1, hother⟩ hstep
    have hfields : s1.e = some e ∧ s1.buf = Buffer.zero ∧ s1.t = none ∧ s1.status = .running
        ∧ s1.calls = s.calls ++ [s.buf.buf] ∧ s1.inClosed = false ∧ s1.d = s.d := by
      rw [hs1, drain_off w { s with timers := ts } ho]
      refine ⟨?_, rfl, rfl, hst, hdc, hopen, rfl⟩
      show (if drainErr w s.calls s.buf.buf ≠ none then drainErr w s.calls s.buf.buf else s.e)
        = some e
      simp [hde]
    obtain ⟨he1, hb1, ht1, hst1, hc1, hop1, hd1⟩ := hfields
    refine ⟨hstep, he1, hb1, ht1, hst1, hc1, ?_, ?_, ?_⟩
    · intro w2 s2 h2
      rw [hother w2 s2 h2, hs1, drain_two_sinks w w2 { s with timers := ts } ho]
      have : (drain w { s with timers := ts }).e = some e := by rw [← hs1]; exact he1
      rw [this]
    · intro t1 t2 data
      obtain ⟨s3, h3, hc3, _, _, hs3⟩ :=
        (write_then_drain w s1 t1 data hst1 hop1 ht1 hb1).1 t2
      exact ⟨s3, h3, hc3, hs3⟩
    · intro t1 t2 data hdl
      rw [← hd1] at hdl
      obtain ⟨s3, h3, hc3, _, _, hs3⟩ :=
        (write_then_drain w s1 t1 data hst1 hop1 ht1 hb1).2 t2 hdl
      exact ⟨s3, h3, hc3, hs3⟩
  rcases hev with rfl | ⟨rfl, tm, htm, hdl⟩
  · refine ⟨_, key _ ⟨stopTimer s.timers i, rfl, ?_⟩ (step_flush_armed w s now i hst ht)⟩
    intro w2 s2 h2
    rw [step_flush_armed w2 s now i hst ht] at h2
    exact (Option.some.inj h2).symm
  · obtain ⟨tm1, htm1, hr⟩ := hi.live i ht
    rw [htm] at htm1
    simp only [Option.some.injEq] at htm1
    subst htm1
    refine ⟨_, key _ ⟨fireTimer s.timers i, rfl, ?_⟩
      (step_timer_armed w s now i tm hst ht htm hr hdl)⟩
    intro w2 s2 h2
    rw [step_timer_armed w2 s now i tm hst ht htm hr hdl] at h2
    exact (Option.some.inj h2).symm

/-- C7 on a sink that fails on its first call, at the expiry of the timer. -/
theorem failing_drain_witness :
    ∃ s1, step (failNth 0)
        ({ d := 16, t := some 0, e := none, inClosed := false, buf := ⟨[1, 2], 0⟩,
           timers := [⟨16, .running⟩], calls := [], status := .running } : State)
        16 .timer = some s1
      ∧ s1.e = some (.other 7) ∧ s1.buf = Buffer.zero ∧ s1.t = none ∧ s1.status = .running
      ∧ s1.calls = [[1, 2]] := by
  obtain ⟨s1, h1, h2, h3, h4, h5, h6, _⟩ :=
    failing_drain (failNth 0) 16 [(0, .write [1, 2])]
      { d := 16, t := some 0, e := none, inClosed := false, buf := ⟨[1, 2], 0⟩,
        timers := [⟨16, .running⟩], calls := [], status := .running }
      0 16 .timer (.other 7) (by decide) rfl (by decide)
      (Or.inr ⟨rfl, ⟨16, .running⟩, rfl, by decide⟩) (by decide)
  exact ⟨s1, h1, h2, h3, h4, h5, h6⟩

/-! ## Last Error -/

theorem callErrs_concat (w : Sink) (calls : List Bytes) (p : Bytes) :
    callErrs w (calls ++ [p]) = callErrs w calls ++ [offerErr w calls p] := by
  unfold callErrs
  rw [List.length_append, List.length_singleton, List.range_succ, List.map_append]
  congr 1
  · apply List.map_congr_left
    intro k hk
    have hk1 : k < calls.length := List.mem_range.mp hk
    rw [List.take_append_of_le_length (Nat.le_of_lt hk1), List.getD_append _ _ _ _ hk1]
  · simp only [List.map_cons, List.map_nil, List.take_left]
    rw [List.getD_eq_getElem?_getD, List.getElem?_concat_length]
    rfl

theorem failures_concat (w : Sink) (calls : List Bytes) (p : Bytes) :
    failures w (calls ++ [p]) = failures w calls ++ (offerErr w calls p).toList := by
  unfold failures
  rw [callErrs_concat, List.filterMap_append]
  cases offerErr w calls p <;> rfl

/-- Last Error after a drain, whatever the previous one was. -/
theorem ErrInv_drain (w : Sink) (s : State) (hi : ErrInv w s) : ErrInv w (drain w s) := by
  obtain ⟨ho, he⟩ := hi
  rw [drain_off w s ho]
  refine ⟨rfl, ?_⟩
  show (if drainErr w s.calls s.buf.buf ≠ none then drainErr w s.calls s.buf.buf else s.e)
    = (failures w (drainCalls s.calls s.buf.buf)).getLast?
  unfold drainErr drainCalls
  by_cases hb : s.buf.buf = []
  · simp only [hb, if_true, ne_eq, not_true_eq_false, if_false]
    exact he
  · simp only [hb, if_false]
    rw [failures_concat]
    cases hoe : offerErr w s.calls s.buf.buf with
    | none => simpa using he
    | some e1 => simp [List.getLast?_append]

theorem ErrInv_step (w : Sink) (s s1 : State) (now : Int) (ev : Event)
    (h : step w s now ev = some s1) (hi : ErrInv w s) : ErrInv w s1 := by
  obtain ⟨_, hc⟩ := step_cases w s s1 now ev h
  rcases hc with ⟨data, rfl, _, _, rfl⟩ | ⟨data, i, rfl, _, _, rfl⟩ | ⟨rfl, _, rfl⟩
    | ⟨i, rfl, _, rfl⟩ | ⟨i, tm, rfl, _, _, _, _, rfl⟩ | ⟨rfl, _, _, rfl⟩ | ⟨i, rfl, _, _, rfl⟩
  · exact hi
  · exact hi
  · exact hi
  · exact ErrInv_drain w { s with timers := stopTimer s.timers i } hi
  · exact ErrInv_drain w { s with timers := fireTimer s.timers i } hi
  · exact hi
  · exact hi

theorem ErrInv_run (w : Sink) (evs : List (Int × Event)) (s s1 : State)
    (h : run w s evs = some s1) (hi : ErrInv w s) : ErrInv w s1 := by
  induction evs generalizing s with
  | nil =>
    simp only [run, Option.some.injEq] at h
    subst h
    exact hi
  | cons x evs ih =>
    obtain ⟨now, ev⟩ := x
    simp only [run] at h
    cases hs : step w s now ev with
    | none => simp [hs] at h
    | some s2 =>
      rw [hs] at h
      exact ih s2 h (ErrInv_step w s s2 now ev hs hi)

theorem ErrInv_New (w : Sink) (d : Int) : ErrInv w (New d) := ⟨rfl, rfl⟩

/-- No message clears Last Error. -/
theorem step_keeps_error (w : Sink) (s s1 : State) (now : Int) (ev : Event)
    (h : step w s now ev = some s1) (he : s.e ≠ none) : s1.e ≠ none := by
  have hd : ∀ s0 : State, s0.e ≠ none → (drain w s0).e ≠ none := by
    intro s0 h0
    obtain ⟨b1, n, err, hW⟩ := WriteTo_ret s0.buf w s0.calls
    unfold drain
    rw [hW]
    show (if err ≠ none then err else s0.e) ≠ none
    by_cases herr : err ≠ none
    · rw [if_pos herr]
      exact herr
    · rw [if_neg herr]
      exact h0
  obtain ⟨_, hc⟩ := step_cases w s s1 now ev h
  rcases hc with ⟨data, rfl, _, _, rfl⟩ | ⟨data, i, rfl, _, _, rfl⟩ | ⟨rfl, _, rfl⟩
    | ⟨i, rfl, _, rfl⟩ | ⟨i, tm, rfl, _, _, _, _, rfl⟩ | ⟨rfl, _, _, rfl⟩ | ⟨i, rfl, _, _, rfl⟩
  · exact he
  · exact he
  · exact he
  · exact hd { s with timers := stopTimer s.timers i } he
  · exact hd { s with timers := fireTimer s.timers i } he
  · exact he
  · exact he

theorem run_keeps_error (w : Sink) (evs : List (Int × Event)) (s s1 : State)
    (h : run w s evs = some s1) (he : s.e ≠ none) : s1.e ≠ none := by
  induction evs generalizing s with
  | nil =>
    simp only [run, Option.some.injEq] at h
    subst h
    exact he
  | cons x evs ih =>
    obtain ⟨now, ev⟩ := x
    simp only [run] at h
    cases hs : step w s now ev with
    | none => simp [hs] at h
    | some s2 =>
      rw [hs] at h
      exact ih s2 h (step_keeps_error w s s2 now ev hs he)

/-- No drain has failed exactly when every call was answered without error and
with the full count. -/
theorem failures_eq_nil_iff (w : Sink) (calls : List Bytes) :
    failures w calls = [] ↔
      ∀ k, k < calls.length → offerErr w (calls.take k) (calls.getD k []) = none := by
  unfold failures callErrs
  rw [List.filterMap_eq_nil_iff]
  constructor
  · intro h k hk
    exact h _ (List.mem_map.mpr ⟨k, List.mem_range.mpr hk, rfl⟩)
  · intro h x hx
    obtain ⟨k, hk, rfl⟩ := List.mem_map.mp hx
    exact h k (List.mem_range.mp hk)

/-- The result of `Close` when `w.in` is still open, whatever it reads in `w.t`. -/
theorem Close_open (s : State) (seen : Option Nat) (hopen : s.inClosed = false) :
    ∃ sc, Close s seen = some (sc, s.e) ∧ sc.calls = s.calls ∧ sc.buf = s.buf ∧ sc.t = s.t
      ∧ sc.status = s.status ∧ sc.inClosed = true ∧ sc.e = s.e ∧ sc.d = s.d := by
  obtain ⟨d, t, e, ic, buf, timers, calls, status⟩ := s
  simp only at hopen
  subst hopen
  cases seen with
  | none => exact ⟨_, rfl, rfl, rfl, rfl, rfl, rfl, rfl, rfl⟩
  | some j => exact ⟨_, rfl, rfl, rfl, rfl, rfl, rfl, rfl, rfl⟩

/-- C8. After any sequence of messages handled from construction, `Close`
(whatever it reads in `w.t`) returns Last Error, which is the error of the most recent failed drain, nil when
no drain has failed (every call was answered without error and with the full
count).  In particular it is not nil once the sink has answered some call with
an error.  No later message clears it: a message either leaves Last Error and
the sink alone, or it makes one sink call and stores that call's error if there
is one, keeping the stored error otherwise. -/
theorem close_reports (w : Sink) (d : Int) (evs : List (Int × Event)) (s : State)
    (h : run w (New d) evs = some s) :
    (∀ seen, ∃ sc, Close s seen = some (sc, (failures w s.calls).getLast?))
    ∧ s.e = (failures w s.calls).getLast?
    ∧ (s.e = none ↔
        ∀ k, k < s.calls.length → offerErr w (s.calls.take k) (s.calls.getD k []) = none)
    ∧ (∀ k, k < s.calls.length → (w.write (s.calls.take k) (s.calls.getD k [])).2 ≠ none →
        s.e ≠ none)
    ∧ (∀ evs2 s2, run w s evs2 = some s2 → s.e ≠ none →
        s2.e ≠ none ∧ ∀ seen, ∃ sc e2, Close s2 seen = some (sc, some e2))
    ∧ (∀ now ev s1, step w s now ev = some s1 →
        (s1.calls = s.calls ∧ s1.e = s.e)
        ∨ ∃ p, s1.calls = s.calls ++ [p]
            ∧ s1.e = (if offerErr w s.calls p ≠ none then offerErr w s.calls p else s.e)) := by
  obtain ⟨ho, he⟩ := ErrInv_run w evs (New d) s h (ErrInv_New w d)
  have hi := Inv_run w evs (New d) s [] h (Inv_New d)
  have hnone : s.e = none ↔
      ∀ k, k < s.calls.length → offerErr w (s.calls.take k) (s.calls.getD k []) = none := by
    rw [he, List.getLast?_eq_none_iff]
    exact failures_eq_nil_iff w s.calls
  refine ⟨?_, he, hnone, ?_, ?_, ?_⟩
  · intro seen
    obtain ⟨sc, hsc, _⟩ := Close_open s seen hi.isOpen
    rw [he] at hsc
    exact ⟨sc, hsc⟩
  · intro k hk hw hcl
    have := hnone.mp hcl k hk
    unfold offerErr at this
    rw [if_pos hw] at this
    exact hw this
  · intro evs2 s2 h2 hne
    have hne2 := run_keeps_error w evs2 s s2 h2 hne
    have hrun2 : run w (New d) (evs ++ evs2) = some s2 := by
      rw [run_append, h]
      exact h2
    have hi2 := Inv_run w (evs ++ evs2) (New d) s2 [] hrun2 (Inv_New d)
    refine ⟨hne2, ?_⟩
    intro seen
    obtain ⟨sc, hsc, _⟩ := Close_open s2 seen hi2.isOpen
    cases he2 : s2.e with
    | none => exact absurd he2 hne2
    | some e2 =>
      rw [he2] at hsc
      exact ⟨sc, e2, hsc⟩
  · intro now ev s1 hs
    have hdr : ∀ ts : List Timer,
        ((drain w { s with timers := ts }).calls = s.calls
          ∧ (drain w { s with timers := ts }).e = s.e)
        ∨ ∃ p, (drain w { s with timers := ts }).calls = s.calls ++ [p]
            ∧ (drain w { s with timers := ts }).e
              = (if offerErr w s.calls p ≠ none then offerErr w s.calls p else s.e) := by
      intro ts
      rw [drain_off w { s with timers := ts } ho]
      by_cases hb : s.buf.buf = []
      · left
        simp [drainCalls, drainErr, hb]
      · right
        exact ⟨s.buf.buf, by simp [drainCalls, hb], by simp [drainErr, hb]⟩
    obtain ⟨_, hc⟩ := step_cases w s s1 now ev hs
    rcases hc with ⟨data, rfl, _, _, rfl⟩ | ⟨data, i, rfl, _, _, rfl⟩ | ⟨rfl, _, rfl⟩
      | ⟨i, rfl, _, rfl⟩ | ⟨i, tm, rfl, _, _, _, _, rfl⟩ | ⟨rfl, _, _, rfl⟩
      | ⟨i, rfl, _, _, rfl⟩
    · exact Or.inl ⟨rfl, rfl⟩
    · exact Or.inl ⟨rfl, rfl⟩
    · exact Or.inl ⟨rfl, rfl⟩
    · exact hdr _
    · exact hdr _
    · exact Or.inl ⟨rfl, rfl⟩
    · exact Or.inl ⟨rfl, rfl⟩

/-- C8 on a sink that fails on its first call only: the error of the first drain
is what `Close` returns after a second, successful drain. -/
theorem close_reports_witness :
    run (failNth 0) (New 16) [(0, .write [1, 2]), (16, .timer), (20, .write [3]), (21, .flush)]
      = some { d := 16, t := none, e := some (.other 7), inClosed := false, buf := ⟨[], 0⟩,
               timers := [⟨16, .fired⟩, ⟨36, .stopped⟩], calls := [[1, 2], [3]],
               status := .running }
    ∧ (failures (failNth 0) [[1, 2], [3]]).getLast? = some (.other 7)
    ∧ (∃ sc, Close
        ({ d := 16, t := none, e := some (.other 7), inClosed := false, buf := ⟨[], 0⟩,
           timers := [⟨16, .fired⟩, ⟨36, .stopped⟩], calls := [[1, 2], [3]],
           status := .running } : State)
        none
        = some (sc, (failures (failNth 0) [[1, 2], [3]]).getLast?)) :=
  ⟨by decide, by decide,
    (close_reports (failNth 0) 16
      [(0, .write [1, 2]), (16, .timer), (20, .write [3]), (21, .flush)]
      { d := 16, t := none, e := some (.other 7), inClosed := false, buf := ⟨[], 0⟩,
        timers := [⟨16, .fired⟩, ⟨36, .stopped⟩], calls := [[1, 2], [3]],
        status := .running }
      (by decide)).1 none⟩

/-! ## The result of Write -/

/-- C9. In every state reached from construction, `Write` of any payload, the
empty one included, is accepted and returns the length of the payload together
with the Last Error held before the call; accepting the payload changes neither
Last Error nor the calls made to the sink.  That error is nil exactly when no
drain has failed so far. -/
theorem write_result (w : Sink) (d : Int) (evs : List (Int × Event)) (s : State)
    (h : run w (New d) evs = some s) (now : Int) (data : Bytes) :
    ∃ s1, Write w s now data = some (s1, (data.length : Int), s.e)
      ∧ s1.e = s.e ∧ s1.calls = s.calls
      ∧ (s.e = none ↔ failures w s.calls = []) := by
  have hi := Inv_run w evs (New d) s [] h (Inv_New d)
  obtain ⟨_, he⟩ := ErrInv_run w evs (New d) s h (ErrInv_New w d)
  have hiff : s.e = none ↔ failures w s.calls = [] := by
    rw [he, List.getLast?_eq_none_iff]
  unfold Write
  cases ht : s.t with
  | none =>
    rw [step_write_idle w s now data hi.running hi.isOpen ht]
    exact ⟨_, rfl, rfl, rfl, hiff⟩
  | some i =>
    rw [step_write_armed w s now data i hi.running hi.isOpen ht]
    exact ⟨_, rfl, rfl, rfl, hiff⟩

/-- C9 after a failed drain: a write of the empty payload returns 0 and the error
of that drain. -/
theorem write_result_witness :
    ∃ s1, Write (failNth 0)
        ({ d := 16, t := none, e := some (.other 7), inClosed := false, buf := ⟨[], 0⟩,
           timers := [⟨16, .fired⟩], calls := [[1, 2]], status := .running } : State)
        20 [] = some (s1, 0, some (.other 7))
      ∧ s1.e = some (.other 7) ∧ s1.calls = [[1, 2]]
      ∧ ((some (.other 7) : Option GoError) = none ↔ failures (failNth 0) [[1, 2]] = []) :=
  write_result (failNth 0) 16 [(0, .write [1, 2]), (16, .timer)]
    { d := 16, t := none, e := some (.other 7), inClosed := false, buf := ⟨[], 0⟩,
      timers := [⟨16, .fired⟩], calls := [[1, 2]], status := .running }
    (by decide) 20 []

/-! ## Close -/

/-- Once the loop has left its `for`, it handles no message. -/
theorem run_done (w : Sink) (evs : List (Int × Event)) (s s1 : State)
    (hst : s.status = .done) (h : run w s evs = some s1) : s1 = s := by
  cases evs with
  | nil =>
    simp only [run, Option.some.injEq] at h
    exact h.symm
  | cons x evs =>
    obtain ⟨now, ev⟩ := x
    simp [run, step, hst] at h

/-- C10, as stated, fails. A writer with interval 0 accepts two bytes; `Write`
returns at the hand-off, and `Close` reads `w.t` before the loop has run line
52, so it stops no timer.  The loop then receives the expiry of its timer,
passes the two bytes to the sink, and handles the closing of `w.in` after that:
the calls made to the sink after `Close` are not those made before it. -/
theorem close_discards_counterexample :
    ¬ (∀ (w : Sink) (d : Int) (evs evs2 : List (Int × Event)) (s sc s3 : State)
        (err : Option GoError),
        run w (New d) evs = some s → s.t ≠ none → s.buf.unread ≠ [] →
        Close s none = some (sc, err) → run w sc evs2 = some s3 →
        s3.calls = s.calls) := by
  intro hall
  have h := hall okSink 0 [(0, .write [1, 2])] [(0, .timer), (1, .close)]
    { d := 0, t := some 0, e := none, inClosed := false, buf := ⟨[1, 2], 0⟩,
      timers := [⟨0, .running⟩], calls := [], status := .running }
    { d := 0, t := some 0, e := none, inClosed := true, buf := ⟨[1, 2], 0⟩,
      timers := [⟨0, .running⟩], calls := [], status := .running }
    { d := 0, t := none, e := none, inClosed := true, buf := ⟨[], 0⟩,
      timers := [⟨0, .fired⟩], calls := [[1, 2]], status := .done }
    none (by decide) (by decide) (by decide) (by decide) (by decide)
  exact absurd h (by decide)

/-- C10, amended.
* In every state, handling the closing of `w.in` makes no sink call, keeps the
  buffer and Last Error as they are, stops the timer that is referenced and ends
  the loop; the loop handles no message after that, so the calls made to the
  sink stay what they were when the closing was handled and the bytes then in
  the buffer never reach the sink.
* While the loop is running and `w.in` is open, `Close`, whatever it reads in
  `w.t`, returns Last Error without a sink call, and the loop can handle the
  closing of `w.in` as its next message; the calls made to the sink are then
  those made before `Close` and the buffered bytes never reach the sink. -/
theorem close_discards (w : Sink) (s : State) (hst : s.status = .running)
    (hopen : s.inClosed = false) :
    (∀ (s0 : State) now s2, step w s0 now .close = some s2 →
        s2.calls = s0.calls ∧ s2.buf = s0.buf ∧ s2.e = s0.e ∧ s2.status = .done
        ∧ (∀ i, s0.t = some i → ∀ tm, s2.timers[i]? = some tm → tm.state ≠ .running)
        ∧ (∀ t ev, step w s2 t ev = none)
        ∧ (∀ evs s3, run w s2 evs = some s3 → s3.calls = s0.calls ∧ s3.buf = s0.buf))
    ∧ (∀ seen, ∃ sc, Close s seen = some (sc, s.e) ∧ sc.calls = s.calls
        ∧ ∀ now, ∃ s2, step w sc now .close = some s2
          ∧ s2.calls = s.calls ∧ s2.buf = s.buf ∧ s2.status = .done
          ∧ (∀ i, s.t = some i → ∀ tm, s2.timers[i]? = some tm → tm.state ≠ .running)
          ∧ (∀ t ev, step w s2 t ev = none)
          ∧ (∀ evs s3, run w s2 evs = some s3 → s3.calls = s.calls ∧ s3.buf = s.buf)) := by
  have hfin : ∀ (s0 s2 : State), s2.status = .done → s2.calls = s0.calls → s2.buf = s0.buf →
      (∀ t ev, step w s2 t ev = none)
      ∧ (∀ evs s3, run w s2 evs = some s3 → s3.calls = s0.calls ∧ s3.buf = s0.buf) := by
    intro s0 s2 hd hc hb
    refine ⟨fun t ev => by simp [step, hd], ?_⟩
    intro evs s3 h3
    rw [run_done w evs s2 s3 hd h3]
    exact ⟨hc, hb⟩
  have hclose : ∀ (s0 : State) now s2, step w s0 now .close = some s2 →
      s2.calls = s0.calls ∧ s2.buf = s0.buf ∧ s2.e = s0.e ∧ s2.status = .done
      ∧ (∀ i, s0.t = some i → ∀ tm, s2.timers[i]? = some tm → tm.state ≠ .running)
      ∧ (∀ t ev, step w s2 t ev = none)
      ∧ (∀ evs s3, run w s2 evs = some s3 → s3.calls = s0.calls ∧ s3.buf = s0.buf) := by
    intro s0 now s2 h
    obtain ⟨_, hc⟩ := step_cases w s0 s2 now .close h
    rcases hc with ⟨_, h, _⟩ | ⟨_, _, h, _⟩ | ⟨h, _⟩ | ⟨_, h, _⟩ | ⟨_, _, h, _⟩
      | ⟨_, _, ht, rfl⟩ | ⟨j, _, _, ht, rfl⟩
    · cases h
    · cases h
    · cases h
    · cases h
    · cases h
    · refine ⟨rfl, rfl, rfl, rfl, ?_, hfin s0 _ rfl rfl rfl⟩
      intro i hi
      rw [ht] at hi
      cases hi
    · refine ⟨rfl, rfl, rfl, rfl, ?_, hfin s0 _ rfl rfl rfl⟩
      intro i hi tm htm hr
      rw [ht] at hi
      simp only [Option.some.injEq] at hi
      subst hi
      exact (stopTimer_running _ j j tm htm hr).1 rfl
  refine ⟨hclose, ?_⟩
  intro seen
  obtain ⟨sc, hsc, hcc, hcb, hct, hcs, hci, _, _⟩ := Close_open s seen hopen
  refine ⟨sc, hsc, hcc, ?_⟩
  intro now
  rw [hst] at hcs
  have hex : ∃ s2, step w sc now .close = some s2 := by
    cases ht : s.t with
    | none =>
      rw [ht] at hct
      exact ⟨_, step_close_idle w sc now hcs hci hct⟩
    | some j =>
      rw [ht] at hct
      exact ⟨_, step_close_armed w sc now j hcs hci hct⟩
  obtain ⟨s2, hs2⟩ := hex
  obtain ⟨h1, h2, _, h4, h5, h6, h7⟩ := hclose sc now s2 hs2
  refine ⟨s2, hs2, h1.trans hcc, h2.trans hcb, h4, ?_, h6, ?_⟩
  · intro i hi
    exact h5 i (hct.trans hi)
  · intro evs s3 h3
    obtain ⟨hc3, hb3⟩ := h7 evs s3 h3
    exact ⟨hc3.trans hcc, hb3.trans hcb⟩

/-- C10, amended, on a writer that holds two bytes when `Close` is called and
reads the timer the loop holds. -/
theorem close_discards_witness :
    ∃ sc, Close
        ({ d := 16, t := some 0, e := none, inClosed := false, buf := ⟨[1, 2], 0⟩,
           timers := [⟨16, .running⟩], calls := [], status := .running } : State)
        (some 0)
        = some (sc, none)
      ∧ ∃ s2, step okSink sc 5 .close = some s2
        ∧ s2.calls = [] ∧ s2.buf = ⟨[1, 2], 0⟩ ∧ s2.status = .done
        ∧ (∀ t ev, step okSink s2 t ev = none) := by
  obtain ⟨sc, hsc, _, hrest⟩ :=
    (close_discards okSink
      { d := 16, t := some 0, e := none, inClosed := false, buf := ⟨[1, 2], 0⟩,
        timers := [⟨16, .running⟩], calls := [], status := .running } rfl rfl).2 (some 0)
  obtain ⟨s2, h1, h2, h3, h4, _, h6, _⟩ := hrest 5
  exact ⟨sc, hsc, s2, h1, h2, h3, h4, h6⟩

/-! ## Sink calls per drain -/

/-- A drain from a state in which a timer is referenced and the read offset is 0,
by a flush request or by the expiry of the timer. -/
theorem drain_step (w : Sink) (s s1 : State) (i : Nat) (now : Int) (ev : Event)
    (ht : s.t = some i) (ho : s.buf.off = 0) (hev : ev = .flush ∨ ev = .timer)
    (h : step w s now ev = some s1) :
    s1.calls = drainCalls s.calls s.buf.buf
    ∧ s1.e = (if drainErr w s.calls s.buf.buf ≠ none then drainErr w s.calls s.buf.buf else s.e)
    ∧ s1.buf = Buffer.zero ∧ s1.t = none ∧ s1.status = .running
    ∧ s1.inClosed = s.inClosed ∧ s1.d = s.d := by
  obtain ⟨hst, hc⟩ := step_cases w s s1 now ev h
  rcases hc with ⟨data, rfl, _⟩ | ⟨data, j, rfl, _⟩ | ⟨_, hn, _⟩
    | ⟨j, _, _, rfl⟩ | ⟨j, tm, _, _, _, _, _, rfl⟩ | ⟨rfl, _⟩ | ⟨j, rfl, _⟩
  · rcases hev with hev | hev <;> cases hev
  · rcases hev with hev | hev <;> cases hev
  · rw [ht] at hn; cases hn
  · rw [drain_off w { s with timers := stopTimer s.timers j } ho]
    exact ⟨rfl, rfl, rfl, rfl, hst, rfl, rfl⟩
  · rw [drain_off w { s with timers := fireTimer s.timers j } ho]
    exact ⟨rfl, rfl, rfl, rfl, hst, rfl, rfl⟩
  · rcases hev with hev | hev <;> cases hev
  · rcases hev with hev | hev <;> cases hev

/-- C11, as stated, fails: after a zero-length write accepted by a freshly
constructed writer, the flush handled while the timer is armed calls the sink
not at all. -/
theorem one_call_per_drain_counterexample :
    ¬ (∀ (w : Sink) (d : Int) (evs : List (Int × Event)) (s s1 : State) (i : Nat) (now : Int),
        run w (New d) evs = some s → s.t = some i → step w s now .flush = some s1 →
        s1.calls = s.calls ++ [s.buf.unread]) := by
  intro hall
  have h := hall okSink 16 [(0, .write [])]
    { d := 16, t := some 0, e := none, inClosed := false, buf := ⟨[], 0⟩,
      timers := [⟨16, .running⟩], calls := [], status := .running }
    { d := 16, t := none, e := none, inClosed := false, buf := ⟨[], 0⟩,
      timers := [⟨16, .stopped⟩], calls := [], status := .running }
    0 1 (by decide) rfl (by decide)
  exact absurd h (by decide)

/-- C11, amended. In every state reached from construction in which a timer is
referenced, a drain (a flush request, handled at any instant, or the expiry of
the timer, handled exactly at the instants from its deadline on) calls the sink
at most once: exactly once, with the whole contents of the buffer, when the
buffer is not empty, and not at all when it is empty.  The buffer is empty
afterwards. -/
theorem one_call_per_drain (w : Sink) (d : Int) (evs : List (Int × Event)) (s : State)
    (i : Nat) (h : run w (New d) evs = some s) (ht : s.t = some i) :
    (∀ now ev s1, (ev = .flush ∨ ev = .timer) → step w s now ev = some s1 →
        s1.calls = (if s.buf.unread = [] then s.calls else s.calls ++ [s.buf.unread])
        ∧ s1.buf = Buffer.zero)
    ∧ (∀ now, (step w s now .flush).isSome)
    ∧ (∃ tm, s.timers[i]? = some tm ∧ ∀ now, (step w s now .timer).isSome ↔ tm.deadline ≤ now) := by
  have hi := Inv_run w evs (New d) s [] h (Inv_New d)
  refine ⟨?_, ?_, ?_⟩
  · intro now ev s1 hev hs
    obtain ⟨hc, _, hb, _⟩ := drain_step w s s1 i now ev ht hi.off hev hs
    rw [unread_of_off s.buf hi.off]
    exact ⟨hc, hb⟩
  · intro now
    rw [step_flush_armed w s now i hi.running ht]
    rfl
  · obtain ⟨tm, htm, hr⟩ := hi.live i ht
    refine ⟨tm, htm, ?_⟩
    intro now
    constructor
    · intro hsome
      obtain ⟨s2, hs2⟩ := Option.isSome_iff_exists.mp hsome
      obtain ⟨_, hc⟩ := step_cases w s s2 now .timer hs2
      rcases hc with ⟨_, h, _⟩ | ⟨_, _, h, _⟩ | ⟨h, _⟩ | ⟨_, h, _⟩
        | ⟨j, tm1, _, htj, htmj, _, hdl, _⟩ | ⟨h, _⟩ | ⟨_, h, _⟩
      · cases h
      · cases h
      · cases h
      · cases h
      · rw [ht] at htj
        simp only [Option.some.injEq] at htj
        subst htj
        rw [htm] at htmj
        simp only [Option.some.injEq] at htmj
        subst htmj
        exact hdl
      · cases h
      · cases h
    · intro hdl
      rw [step_timer_armed w s now i tm hi.running ht htm hr hdl]
      rfl

/-- C11, amended, on a buffer of two bytes drained by the expiry of the timer. -/
theorem one_call_per_drain_witness :
    step okSink
        ({ d := 16, t := some 0, e := none, inClosed := false, buf := ⟨[1, 2], 0⟩,
           timers := [⟨16, .running⟩], calls := [], status := .running } : State)
        16 .timer
      = some { d := 16, t := none, e := none, inClosed := false, buf := ⟨[], 0⟩,
               timers := [⟨16, .fired⟩], calls := [[1, 2]], status := .running }
    ∧ (([[1, 2]] : List Bytes)
        = (if (⟨[1, 2], 0⟩ : Buffer).unread = [] then []
            else [] ++ [(⟨[1, 2], 0⟩ : Buffer).unread])
      ∧ (⟨[], 0⟩ : Buffer) = Buffer.zero) :=
  ⟨by decide,
    (one_call_per_drain okSink 16 [(0, .write [1, 2])]
      { d := 16, t := some 0, e := none, inClosed := false, buf := ⟨[1, 2], 0⟩,
        timers := [⟨16, .running⟩], calls := [], status := .running }
      0 (by decide) rfl).1 16 .timer
      { d := 16, t := none, e := none, inClosed := false, buf := ⟨[], 0⟩,
        timers := [⟨16, .fired⟩], calls := [[1, 2]], status := .running }
      (Or.inr rfl) (by decide)⟩

/-! ## No stranded data -/

/-- C13. In every state reached from construction: when the timer reference is
nil the buffer is empty; when the buffer holds at least one byte, the timer
reference points to a running timer, and the loop handles its expiry at every
instant from its deadline on by passing the whole buffer to the sink. -/
theorem no_stranded_data (w : Sink) (d : Int) (evs : List (Int × Event)) (s : State)
    (h : run w (New d) evs = some s) :
    (s.t = none → s.buf.unread = [] ∧ s.buf = Buffer.zero)
    ∧ (s.buf.unread ≠ [] →
        ∃ i tm, s.t = some i ∧ s.timers[i]? = some tm ∧ tm.state = .running
          ∧ ∀ now, tm.deadline ≤ now →
              ∃ s1, step w s now .timer = some s1
                ∧ s1.calls = s.calls ++ [s.buf.unread] ∧ s1.buf = Buffer.zero
                ∧ s1.t = none) := by
  have hi := Inv_run w evs (New d) s [] h (Inv_New d)
  have hidle : s.t = none → s.buf.unread = [] ∧ s.buf = Buffer.zero := by
    intro ht
    have hz := Inv_idle_buf s _ hi ht
    refine ⟨?_, hz⟩
    rw [hz]
    rfl
  refine ⟨hidle, ?_⟩
  intro hne
  cases ht : s.t with
  | none => exact absurd (hidle ht).1 hne
  | some i =>
    obtain ⟨tm, htm, hr⟩ := hi.live i ht
    refine ⟨i, tm, rfl, htm, hr, ?_⟩
    intro now hdl
    obtain ⟨s1, h1, hc, _, hb, ht1, _⟩ := timer_armed w s now i tm hi.running ht hi.off htm hr hdl
    refine ⟨s1, h1, ?_, hb, ht1⟩
    rw [hc, unread_of_off s.buf hi.off]
    have hbb : s.buf.buf ≠ [] := by
      rw [← unread_of_off s.buf hi.off]
      exact hne
    simp only [drainCalls, hbb, if_false]

/-- C13 on a writer that holds one byte after a drain. -/
theorem no_stranded_data_witness :
    (([⟨16, .stopped⟩, ⟨36, .running⟩] : List Timer)[1]? = some ⟨36, .running⟩)
    ∧ ((⟨[3], 0⟩ : Buffer).unread ≠ [] →
        ∃ i tm, (some 1 : Option Nat) = some i
          ∧ ([⟨16, .stopped⟩, ⟨36, .running⟩] : List Timer)[i]? = some tm
          ∧ tm.state = .running
          ∧ ∀ now, tm.deadline ≤ now →
              ∃ s1, step okSink
                  ({ d := 16, t := some 1, e := none, inClosed := false, buf := ⟨[3], 0⟩,
                     timers := [⟨16, .stopped⟩, ⟨36, .running⟩], calls := [[1, 2]],
                     status := .running } : State)
                  now .timer = some s1
                ∧ s1.calls = [[1, 2]] ++ [(⟨[3], 0⟩ : Buffer).unread] ∧ s1.buf = Buffer.zero
                ∧ s1.t = none) :=
  ⟨by decide,
    (no_stranded_data okSink 16 [(0, .write [1, 2]), (5, .flush), (20, .write [3])]
      { d := 16, t := some 1, e := none, inClosed := false, buf := ⟨[3], 0⟩,
        timers := [⟨16, .stopped⟩, ⟨36, .running⟩], calls := [[1, 2]],
        status := .running }
      (by decide)).2⟩

/-! ## The empty write -/

/-- C14. From an idle state (loop running, no timer, empty buffer), the write of
a zero-length payload at `t0` is accepted; it creates the timer, with deadline
`t0 + d`, and leaves the buffer empty.  The drain that follows, by a flush
request at any instant or by the expiry of the timer at any instant from
`t0 + d` on, calls the sink not at all, leaves Last Error as it was, and leaves
the loop running with no timer and an empty buffer. -/
theorem empty_write (w : Sink) (s : State) (t0 : Int)
    (hst : s.status = .running) (hopen : s.inClosed = false) (ht : s.t = none)
    (hbuf : s.buf = Buffer.zero) :
    ∃ sa, step w s t0 (.write []) = some sa
      ∧ Write w s t0 [] = some (sa, 0, s.e)
      ∧ sa.t = some s.timers.length
      ∧ sa.timers = s.timers ++ [{ deadline := t0 + s.d, state := .running }]
      ∧ sa.buf = Buffer.zero ∧ sa.buf.unread = []
      ∧ sa.calls = s.calls ∧ sa.e = s.e
      ∧ (∀ now, ∃ s1, step w sa now .flush = some s1
          ∧ s1.calls = s.calls ∧ s1.e = s.e
          ∧ s1.t = none ∧ s1.buf = Buffer.zero ∧ s1.status = .running)
      ∧ (∀ now, t0 + s.d ≤ now → ∃ s1, step w sa now .timer = some s1
          ∧ s1.calls = s.calls ∧ s1.e = s.e
          ∧ s1.t = none ∧ s1.buf = Buffer.zero ∧ s1.status = .running) := by
  have hs := step_write_idle w s t0 [] hst hopen ht
  have hW : Write w s t0 [] = some
      ({ s with
          buf := s.buf.Write []
          t := some s.timers.length
          timers := s.timers ++ [{ deadline := t0 + s.d, state := .running }] }, 0, s.e) := by
    unfold Write
    rw [hs]
    rfl
  have hbz : s.buf.Write [] = Buffer.zero := by rw [hbuf]; rfl
  refine ⟨_, hs, hW, rfl, rfl, hbz, by rw [hbz]; rfl, rfl, rfl, ?_, ?_⟩
  · intro now
    obtain ⟨s1, h1, hc, he, hb, ht1, hs1, _⟩ :=
      flush_armed w
        { s with
          buf := s.buf.Write []
          t := some s.timers.length
          timers := s.timers ++ [{ deadline := t0 + s.d, state := .running }] }
        now s.timers.length hst rfl (by show (s.buf.Write []).off = 0; rw [hbz]; rfl)
    refine ⟨s1, h1, ?_, ?_, ht1, hb, hs1⟩
    · rw [hc]
      show drainCalls s.calls (s.buf.Write []).buf = s.calls
      rw [hbz]
      rfl
    · rw [he]
      show (if drainErr w s.calls (s.buf.Write []).buf ≠ none
        then drainErr w s.calls (s.buf.Write []).buf else s.e) = s.e
      rw [hbz]
      rfl
  · intro now hdl
    obtain ⟨s1, h1, hc, he, hb, ht1, hs1, _⟩ :=
      timer_armed w
        { s with
          buf := s.buf.Write []
          t := some s.timers.length
          timers := s.timers ++ [{ deadline := t0 + s.d, state := .running }] }
        now s.timers.length ⟨t0 + s.d, .running⟩ hst rfl
        (by show (s.buf.Write []).off = 0; rw [hbz]; rfl)
        (List.getElem?_concat_length _ _) rfl hdl
    refine ⟨s1, h1, ?_, ?_, ht1, hb, hs1⟩
    · rw [hc]
      show drainCalls s.calls (s.buf.Write []).buf = s.calls
      rw [hbz]
      rfl
    · rw [he]
      show (if drainErr w s.calls (s.buf.Write []).buf ≠ none
        then drainErr w s.calls (s.buf.Write []).buf else s.e) = s.e
      rw [hbz]
      rfl

/-- C14 on a freshly constructed writer. -/
theorem empty_write_witness :
    ∃ sa, step okSink (New 16) 0 (.write []) = some sa
      ∧ sa.t = some 0 ∧ sa.buf = Buffer.zero
      ∧ (∀ now, ∃ s1, step okSink sa now .flush = some s1
          ∧ s1.calls = [] ∧ s1.e = none
          ∧ s1.t = none ∧ s1.buf = Buffer.zero ∧ s1.status = .running)
      ∧ (∀ now, 0 + 16 ≤ now → ∃ s1, step okSink sa now .timer = some s1
          ∧ s1.calls = [] ∧ s1.e = none
          ∧ s1.t = none ∧ s1.buf = Buffer.zero ∧ s1.status = .running) := by
  obtain ⟨sa, h1, _, h3, _, h5, _, _, _, h9, h10⟩ := empty_write okSink (New 16) 0 rfl rfl rfl rfl
  exact ⟨sa, h1, h3, h5, h9, h10⟩

/-! ## Short writes -/

/-- The calls made to the sink only grow, at the end. -/
theorem step_calls_grow (w : Sink) (s s1 : State) (now : Int) (ev : Event)
    (h : step w s now ev = some s1) : ∃ more, s1.calls = s.calls ++ more := by
  have hd : ∀ s0 : State, ∃ more, (drain w s0).calls = s0.calls ++ more := by
    intro s0
    rw [(drain_frame w s0).2.2.2.2.2.2]
    by_cases hl : 0 < s0.buf.Len
    · exact ⟨[s0.buf.unread], by rw [if_pos hl]⟩
    · exact ⟨[], by rw [if_neg hl, List.append_nil]⟩
  obtain ⟨_, hc⟩ := step_cases w s s1 now ev h
  rcases hc with ⟨data, rfl, _, _, rfl⟩ | ⟨data, i, rfl, _, _, rfl⟩ | ⟨rfl, _, rfl⟩
    | ⟨i, rfl, _, rfl⟩ | ⟨i, tm, rfl, _, _, _, _, rfl⟩ | ⟨rfl, _, _, rfl⟩ | ⟨i, rfl, _, _, rfl⟩
  · exact ⟨[], (List.append_nil _).symm⟩
  · exact ⟨[], (List.append_nil _).symm⟩
  · exact ⟨[], (List.append_nil _).symm⟩
  · exact hd { s with timers := stopTimer s.timers i }
  · exact hd { s with timers := fireTimer s.timers i }
  · exact ⟨[], (List.append_nil _).symm⟩
  · exact ⟨[], (List.append_nil _).symm⟩

theorem run_calls_grow (w : Sink) (evs : List (Int × Event)) (s s1 : State)
    (h : run w s evs = some s1) : ∃ more, s1.calls = s.calls ++ more := by
  induction evs generalizing s with
  | nil =>
    simp only [run, Option.some.injEq] at h
    subst h
    exact ⟨[], (List.append_nil _).symm⟩
  | cons x evs ih =>
    obtain ⟨now, ev⟩ := x
    simp only [run] at h
    cases hs : step w s now ev with
    | none => simp [hs] at h
    | some s2 =>
      rw [hs] at h
      obtain ⟨m1, h1⟩ := step_calls_grow w s s2 now ev hs
      obtain ⟨m2, h2⟩ := ih s2 h
      exact ⟨m1 ++ m2, by rw [h2, h1, List.append_assoc]⟩

/-- What `WriteTo` returns when the sink reports no error and a count below the
number of bytes offered: the read offset has advanced by the count, the error is
`io.ErrShortWrite`. -/
theorem WriteTo_short (b : Buffer) (w : Sink) (calls : List Bytes) (ho : b.off = 0)
    (hne : b.unread ≠ [])
    (herr : (w.write calls b.unread).2 = none)
    (hcnt : (w.write calls b.unread).1 < (b.unread.length : Int)) :
    b.WriteTo w calls
      = .ret ⟨b.buf, b.off + (w.write calls b.unread).1⟩ (w.write calls b.unread).1
          (some .ErrShortWrite) (calls ++ [b.unread]) := by
  have hu := unread_of_off b ho
  have hl := Len_of_off b ho
  rw [hu] at herr hcnt hne ⊢
  unfold Buffer.WriteTo
  rw [hu, hl]
  have hpos : (b.buf.length : Int) > 0 := by
    have := List.length_pos.mpr hne
    omega
  have h1 : ¬ (w.write calls b.buf).1 > (b.buf.length : Int) := by omega
  have h2 : (w.write calls b.buf).1 ≠ (b.buf.length : Int) := by omega
  simp only [hpos, if_true, h1, if_false, herr, ne_eq, not_true_eq_false, h2, not_false_eq_true]

/-- C15. Take a state reached from construction in which a timer is referenced
and the buffer is not empty, and let the sink answer the offer of that buffer
with no error and a count below the number of bytes offered.  `WriteTo` then
returns `io.ErrShortWrite`, the bytes the sink did not accept still in the
buffer; the drain, by a flush request or by the expiry of the timer, records
`io.ErrShortWrite` as Last Error, resets the buffer, and leaves the loop running
with no timer.  Whatever the loop handles afterwards, the later sink calls carry
bytes of later writes only. -/
theorem short_write (w : Sink) (d : Int) (evs0 : List (Int × Event)) (s : State)
    (i : Nat) (now : Int) (ev : Event)
    (h : run w (New d) evs0 = some s) (ht : s.t = some i) (hne : s.buf.unread ≠ [])
    (hev : ev = .flush ∨ (ev = .timer ∧ ∃ tm, s.timers[i]? = some tm ∧ tm.deadline ≤ now))
    (herr : (w.write s.calls s.buf.unread).2 = none)
    (hcnt : (w.write s.calls s.buf.unread).1 < (s.buf.unread.length : Int)) :
    s.buf.WriteTo w s.calls
      = .ret ⟨s.buf.buf, s.buf.off + (w.write s.calls s.buf.unread).1⟩
          (w.write s.calls s.buf.unread).1 (some .ErrShortWrite) (s.calls ++ [s.buf.unread])
    ∧ ∃ s1, step w s now ev = some s1
      ∧ s1.e = some .ErrShortWrite ∧ s1.buf = Buffer.zero ∧ s1.t = none
      ∧ s1.status = .running ∧ s1.calls = s.calls ++ [s.buf.unread]
      ∧ ∀ evs2 s2, run w s1 evs2 = some s2 →
          ∃ more, s2.calls = s.calls ++ [s.buf.unread] ++ more
            ∧ more.flatten ++ s2.buf.unread = (payloads evs2).flatten := by
  have hi := Inv_run w evs0 (New d) s [] h (Inv_New d)
  have ho := hi.off
  refine ⟨WriteTo_short s.buf w s.calls ho hne herr hcnt, ?_⟩
  have hu := unread_of_off s.buf ho
  rw [hu] at hne herr hcnt ⊢
  have hex : ∃ s1, step w s now ev = some s1 := by
    rcases hev with rfl | ⟨rfl, tm, htm, hdl⟩
    · exact ⟨_, step_flush_armed w s now i hi.running ht⟩
    · obtain ⟨tm1, htm1, hr⟩ := hi.live i ht
      rw [htm] at htm1
      simp only [Option.some.injEq] at htm1
      subst htm1
      exact ⟨_, step_timer_armed w s now i tm hi.running ht htm hr hdl⟩
  obtain ⟨s1, hs1⟩ := hex
  have hev1 : ev = .flush ∨ ev = .timer := by
    rcases hev with hf | ⟨ht1, _⟩
    · exact Or.inl hf
    · exact Or.inr ht1
  obtain ⟨hc, he, hb, ht1, hst1, _, _⟩ := drain_step w s s1 i now ev ht ho hev1 hs1
  have hoe : offerErr w s.calls s.buf.buf = some .ErrShortWrite := by
    unfold offerErr
    have h2 : (w.write s.calls s.buf.buf).1 ≠ (s.buf.buf.length : Int) := by omega
    simp [herr, h2]
  have hde : drainErr w s.calls s.buf.buf = some .ErrShortWrite := by
    unfold drainErr
    rw [if_neg hne, hoe]
  have hc1 : s1.calls = s.calls ++ [s.buf.buf] := by
    rw [hc]
    unfold drainCalls
    rw [if_neg hne]
  refine ⟨s1, hs1, ?_, hb, ht1, hst1, hc1, ?_⟩
  · rw [he, hde]
    rfl
  · intro evs2 s2 h2
    obtain ⟨more, hmore⟩ := run_calls_grow w evs2 s1 s2 h2
    have ho1 : s1.buf.off = 0 := by rw [hb]; rfl
    obtain ⟨ho2, hdel⟩ := run_delivery w evs2 s1 s2 h2 ho1
    refine ⟨more, by rw [hmore, hc1], ?_⟩
    rw [unread_of_off s2.buf ho2]
    have hb1 : s1.buf.buf = [] := by rw [hb]; rfl
    rw [hmore, hb1, List.flatten_append, List.append_nil, List.append_assoc] at hdel
    exact List.append_cancel_left hdel

/-- C15 on a sink that accepts all bytes but the last one, at a flush. -/
theorem short_write_witness :
    ∃ s1, step shortSink
        ({ d := 16, t := some 0, e := none, inClosed := false, buf := ⟨[1, 2, 3], 0⟩,
           timers := [⟨16, .running⟩], calls := [], status := .running } : State)
        5 .flush = some s1
      ∧ s1.e = some .ErrShortWrite ∧ s1.buf = Buffer.zero ∧ s1.t = none
      ∧ s1.status = .running ∧ s1.calls = [] ++ [(⟨[1, 2, 3], 0⟩ : Buffer).unread] := by
  obtain ⟨_, s1, h1, h2, h3, h4, h5, h6, _⟩ :=
    short_write shortSink 16 [(0, .write [1, 2, 3])]
      { d := 16, t := some 0, e := none, inClosed := false, buf := ⟨[1, 2, 3], 0⟩,
        timers := [⟨16, .running⟩], calls := [], status := .running }
      0 5 .flush (by decide) rfl (by decide) (Or.inl rfl) (by decide) (by decide)
  exact ⟨s1, h1, h2, h3, h4, h5, h6⟩

/-! ## Close and the loop -/

/-- A drain is the sink call followed by `drainStore`. -/
theorem drain_eq_store (w : Sink) (s : State) :
    drain w s = drainStore s (s.buf.WriteTo w s.calls) := by
  unfold drain drainStore
  cases s.buf.WriteTo w s.calls <;> rfl

/-- C12 on the code. A writer with an interval of one hour over a sink that
fails on its first call accepts two bytes and then receives a flush request:
the loop stops the timer and calls the sink.  `Close`, called while that call is
in progress, returns nil at once, and the loop is still running.  The loop then
stores the error of the call as Last Error and resets the buffer, and only after
that handles the closing of `w.in` and ends.  So a Last Error update happens
after `Close` has returned, and the nil it returned does not cover the failed
drain. -/
theorem close_during_drain :
    run (failNth 0) (New 3600000000000) [(0, .write [1, 2])]
      = some { d := 3600000000000, t := some 0, e := none, inClosed := false,
               buf := ⟨[1, 2], 0⟩, timers := [⟨3600000000000, .running⟩], calls := [],
               status := .running }
    ∧ step (failNth 0)
        ({ d := 3600000000000, t := some 0, e := none, inClosed := false,
           buf := ⟨[1, 2], 0⟩, timers := [⟨3600000000000, .running⟩], calls := [],
           status := .running } : State)
        1 .flush
      = some (drainStore
          { d := 3600000000000, t := some 0, e := none, inClosed := false,
            buf := ⟨[1, 2], 0⟩, timers := [⟨3600000000000, .stopped⟩], calls := [],
            status := .running }
          ((⟨[1, 2], 0⟩ : Buffer).WriteTo (failNth 0) []))
    ∧ (⟨[1, 2], 0⟩ : Buffer).WriteTo (failNth 0) []
      = .ret ⟨[1, 2], 0⟩ 0 (some (.other 7)) [[1, 2]]
    ∧ Close
        ({ d := 3600000000000, t := some 0, e := none, inClosed := false,
           buf := ⟨[1, 2], 0⟩, timers := [⟨3600000000000, .stopped⟩], calls := [],
           status := .running } : State)
        (some 0)
      = some ({ d := 3600000000000, t := some 0, e := none, inClosed := true,
                buf := ⟨[1, 2], 0⟩, timers := [⟨3600000000000, .stopped⟩], calls := [],
                status := .running }, none)
    ∧ drainStore
        { d := 3600000000000, t := some 0, e := none, inClosed := true,
          buf := ⟨[1, 2], 0⟩, timers := [⟨3600000000000, .stopped⟩], calls := [],
          status := .running }
        (.ret ⟨[1, 2], 0⟩ 0 (some (.other 7)) [[1, 2]])
      = { d := 3600000000000, t := none, e := some (.other 7), inClosed := true,
          buf := ⟨[], 0⟩, timers := [⟨3600000000000, .stopped⟩], calls := [[1, 2]],
          status := .running }
    ∧ step (failNth 0)
        ({ d := 3600000000000, t := none, e := some (.other 7), inClosed := true,
           buf := ⟨[], 0⟩, timers := [⟨3600000000000, .stopped⟩], calls := [[1, 2]],
           status := .running } : State)
        2 .close
      = some { d := 3600000000000, t := none, e := some (.other 7), inClosed := true,
               buf := ⟨[], 0⟩, timers := [⟨3600000000000, .stopped⟩], calls := [[1, 2]],
               status := .done } := by
  refine ⟨by decide, ?_, by decide, by decide, by decide, by decide⟩
  rw [step_flush_armed (failNth 0) _ 1 0 rfl rfl, drain_eq_store]
  rfl

end Swriter
